import Mathlib

/-!
# SysProgLab3: lexeme table, classification driver and renderer

A shallow embedding of `src/main.cpp`.

* `size_t` values are natural numbers; every `size_t` addition and subtraction of the source is
  written with an explicit reduction modulo `SIZE_MOD = 2 ^ 64`.
* A `std::string` is a list of `char`s (`Text`).
* A member function that mutates the table returns its result together with the table afterwards;
  a thrown exception is an `Except.error` carrying the `what()` string, and the table afterwards
  is still reported (it is what a caller that catches the exception would observe).
* `std::regex` is a library outside the repository: the successive matches of a
  `std::regex_iterator` are a parameter (`RegexIterator`) giving, for a pattern and a text, the
  pairs `(position(1), length(1))` of the matches in iteration order.
* `std::sort` is the algorithm of libstdc++ (`bits/stl_algo.h`, `bits/stl_heap.h`): introsort
  down to pieces of at most 16 elements, then an insertion sort over the whole range. Where
  a statement depends on the order given to elements with equal positions, it is the order of
  this implementation.
* `std::cout` is the list of items written to it, in order.
-/

namespace SysProgLab3

/-! ## Data model -/

/-- The enumeration `LexemeType`, in the declaration order of the source. -/
inductive LexemeType
  | NUMBER
  | KEYWORD
  | COMMENT
  | STR_CHAR
  | OPERATOR
  | DELIMITER
  | IDENTIFIER
  | DIRECTIVE
  deriving DecidableEq, Repr

/-- Integer value of an enumerator, which is what `std::to_string(type)` prints. -/
def LexemeType.toNat : LexemeType → Nat
  | .NUMBER => 0
  | .KEYWORD => 1
  | .COMMENT => 2
  | .STR_CHAR => 3
  | .OPERATOR => 4
  | .DELIMITER => 5
  | .IDENTIFIER => 6
  | .DIRECTIVE => 7

/-- Number of values of `size_t` (64-bit). -/
def SIZE_MOD : Nat := 18446744073709551616

/-- Addition of two `size_t` values. -/
def size_add (a b : Nat) : Nat := (a + b) % SIZE_MOD

/-- Subtraction of two `size_t` values, both below `SIZE_MOD`. -/
def size_sub (a b : Nat) : Nat := (a + SIZE_MOD - b) % SIZE_MOD

/-- A `std::string`: one list element per `char`. -/
abbrev Text := List Char

/-- The struct `LexemeTable::LexemeAppearance`. -/
structure LexemeAppearance where
  type : LexemeType
  position : Nat
  len : Nat
  deriving DecidableEq, Repr

/-- The class `LexemeTable`: its only member is the vector `table`. -/
structure LexemeTable where
  table : List LexemeAppearance
  deriving DecidableEq, Repr

/-- The default-constructed table (`table {}`). -/
def LexemeTable.empty : LexemeTable := ⟨[]⟩

deriving instance DecidableEq for Except

/-! ## `LexemeTable::addLexeme` -/

/-- The `what()` string of the `std::out_of_range` thrown for a zero length. -/
def zero_length_what (type : LexemeType) (position : Nat) : String :=
  "Length of lexeme type " ++ toString type.toNat ++ " is 0 (pos " ++ toString position ++ ")."

/-- The lambda passed to `std::all_of` in `addLexeme`, with `position` and `len` captured. -/
def overlap_free (position len : Nat) (la : LexemeAppearance) : Bool :=
  decide (la.position ≥ size_add position len) || decide (size_add la.position la.len ≤ position)

/-- The member `bool LexemeTable::addLexeme(LexemeType type, size_t position, size_t len)`:
the returned value or the thrown exception, and the table afterwards. -/
def LexemeTable.addLexeme (self : LexemeTable) (type : LexemeType) (position len : Nat) :
    Except String Bool × LexemeTable :=
  if len = 0 then
    (.error (zero_length_what type position), self)
  else
    let acceptable := self.table.all (overlap_free position len)
    if !acceptable then
      (.ok false, self)
    else
      (.ok true, ⟨self.table ++ [⟨type, position, len⟩]⟩)

/-! ## `LexemeTable::get_ordered_table` -/

/-- The comparator lambda of `get_ordered_table`. -/
def comp (la1 la2 : LexemeAppearance) : Bool :=
  decide (la1.position < la2.position)

/-- The order a range sorted with `comp` satisfies: `b` is not strictly before `a`. -/
def sorted_before (a b : LexemeAppearance) : Prop := comp b a = false

instance : DecidableRel sorted_before := fun a b => by
  unfold sorted_before
  exact inferInstance

/-! ### `std::sort` as libstdc++ implements it

The range is a list and an iterator is an offset into it. Every loop takes a bound on its
number of turns; a read outside the range, which the library never makes, compares false
and ends the loop. -/

/-- The call `comp(first + i, first + j)` on two places of the range. -/
def comp_at (v : List LexemeAppearance) (i j : Nat) : Bool :=
  match v[i]?, v[j]? with
  | some a, some b => comp a b
  | _, _ => false

/-- The call `std::iter_swap(first + i, first + j)`. -/
def iter_swap (v : List LexemeAppearance) (i j : Nat) : List LexemeAppearance :=
  match v[i]?, v[j]? with
  | some a, some b => (v.set i b).set j a
  | _, _ => v

/-- The function `std::__lg(n)`: the index of the highest set bit of `n > 0`. -/
def lg : Nat → Nat → Nat
  | 0, _ => 0
  | fuel + 1, n => if n < 2 then 0 else lg fuel (n / 2) + 1

/-- The function `std::__move_median_to_first(result, a, b, c, comp)`. -/
def move_median_to_first (v : List LexemeAppearance) (result a b c : Nat) :
    List LexemeAppearance :=
  if comp_at v a b then
    if comp_at v b c then
      iter_swap v result b
    else if comp_at v a c then
      iter_swap v result c
    else
      iter_swap v result a
  else if comp_at v a c then
    iter_swap v result a
  else if comp_at v b c then
    iter_swap v result c
  else
    iter_swap v result b

/-- The loop `while (comp(first, pivot)) ++first;` of `std::__unguarded_partition`. -/
def scan_up (v : List LexemeAppearance) (pivot : Nat) : Nat → Nat → Nat
  | 0, first => first
  | fuel + 1, first =>
    if comp_at v first pivot then scan_up v pivot fuel (first + 1) else first

/-- The loop `while (comp(pivot, last)) --last;` of `std::__unguarded_partition`. -/
def scan_down (v : List LexemeAppearance) (pivot : Nat) : Nat → Nat → Nat
  | 0, last => last
  | fuel + 1, last =>
    if comp_at v pivot last then scan_down v pivot fuel (last - 1) else last

/-- The function `std::__unguarded_partition(first, last, pivot, comp)`: the range afterwards
and the returned cut. -/
def unguarded_partition (pivot : Nat) :
    Nat → List LexemeAppearance → Nat → Nat → List LexemeAppearance × Nat
  | 0, v, first, _ => (v, first)
  | fuel + 1, v, first, last =>
    let first := scan_up v pivot v.length first
    let last := last - 1
    let last := scan_down v pivot v.length last
    if !(first < last) then
      (v, first)
    else
      unguarded_partition pivot fuel (iter_swap v first last) (first + 1) last

/-- The function `std::__unguarded_partition_pivot(first, last, comp)`. -/
def unguarded_partition_pivot (v : List LexemeAppearance) (first last : Nat) :
    List LexemeAppearance × Nat :=
  let mid := first + (last - first) / 2
  let v := move_median_to_first v first (first + 1) mid (last - 1)
  unguarded_partition first v.length v (first + 1) last

/-- The function `std::__push_heap(first, holeIndex, topIndex, value, comp)`, the heap
starting at offset `first` of the range. -/
def push_heap (first topIndex : Nat) (value : LexemeAppearance) :
    Nat → List LexemeAppearance → Nat → List LexemeAppearance
  | 0, v, holeIndex => v.set (first + holeIndex) value
  | fuel + 1, v, holeIndex =>
    let parent := (holeIndex - 1) / 2
    match v[first + parent]? with
    | some p =>
      if holeIndex > topIndex && comp p value then
        push_heap first topIndex value fuel (v.set (first + holeIndex) p) parent
      else
        v.set (first + holeIndex) value
    | none => v.set (first + holeIndex) value

/-- The first loop of `std::__adjust_heap`, which moves the hole down to a leaf along the
larger children: the range, `holeIndex` and `secondChild` afterwards. -/
def adjust_heap_loop (first len : Nat) :
    Nat → List LexemeAppearance → Nat → Nat → List LexemeAppearance × Nat × Nat
  | 0, v, holeIndex, secondChild => (v, holeIndex, secondChild)
  | fuel + 1, v, holeIndex, secondChild =>
    if secondChild < (len - 1) / 2 then
      let secondChild := 2 * (secondChild + 1)
      let secondChild :=
        if comp_at v (first + secondChild) (first + (secondChild - 1)) then secondChild - 1
        else secondChild
      match v[first + secondChild]? with
      | some child =>
        adjust_heap_loop first len fuel (v.set (first + holeIndex) child) secondChild secondChild
      | none => (v, holeIndex, secondChild)
    else
      (v, holeIndex, secondChild)

/-- The function `std::__adjust_heap(first, holeIndex, len, value, comp)`; `len` is at least 1
in every call, the test `2 ≤ len` stands for the signed `(len - 2) / 2`. -/
def adjust_heap (v : List LexemeAppearance) (first holeIndex len : Nat)
    (value : LexemeAppearance) : List LexemeAppearance :=
  let topIndex := holeIndex
  match adjust_heap_loop first len len v holeIndex holeIndex with
  | (v, holeIndex, secondChild) =>
    if len % 2 = 0 && 2 ≤ len && secondChild = (len - 2) / 2 then
      let secondChild := 2 * (secondChild + 1)
      match v[first + (secondChild - 1)]? with
      | some child =>
        push_heap first topIndex value len (v.set (first + holeIndex) child) (secondChild - 1)
      | none => push_heap first topIndex value len v holeIndex
    else
      push_heap first topIndex value len v holeIndex

/-- The function `std::__pop_heap(first, last, result, comp)`. -/
def pop_heap (v : List LexemeAppearance) (first last result : Nat) : List LexemeAppearance :=
  match v[result]?, v[first]? with
  | some value, some top => adjust_heap (v.set result top) first 0 (last - first) value
  | _, _ => v

/-- The loop of `std::__make_heap`, from `parent` down to 0. -/
def make_heap_loop (first len : Nat) :
    Nat → List LexemeAppearance → Nat → List LexemeAppearance
  | 0, v, _ => v
  | fuel + 1, v, parent =>
    match v[first + parent]? with
    | some value =>
      let v := adjust_heap v first parent len value
      if parent = 0 then v else make_heap_loop first len fuel v (parent - 1)
    | none => v

/-- The function `std::__make_heap(first, last, comp)`. -/
def make_heap (v : List LexemeAppearance) (first last : Nat) : List LexemeAppearance :=
  if last - first < 2 then
    v
  else
    make_heap_loop first (last - first) (last - first) v ((last - first - 2) / 2)

/-- The function `std::__sort_heap(first, last, comp)`. -/
def sort_heap (first : Nat) : Nat → List LexemeAppearance → Nat → List LexemeAppearance
  | 0, v, _ => v
  | fuel + 1, v, last =>
    if last - first > 1 then
      sort_heap first fuel (pop_heap v first (last - 1) (last - 1)) (last - 1)
    else
      v

/-- The loop of `std::__heap_select` over the places from `i` to `last`. -/
def heap_select_loop (first middle last : Nat) :
    Nat → List LexemeAppearance → Nat → List LexemeAppearance
  | 0, v, _ => v
  | fuel + 1, v, i =>
    if i < last then
      heap_select_loop first middle last fuel
        (if comp_at v i first then pop_heap v first middle i else v) (i + 1)
    else
      v

/-- The function `std::__heap_select(first, middle, last, comp)`. -/
def heap_select (v : List LexemeAppearance) (first middle last : Nat) :
    List LexemeAppearance :=
  heap_select_loop first middle last (last - middle) (make_heap v first middle) middle

/-- The function `std::__partial_sort(first, middle, last, comp)`. -/
def partial_sort (v : List LexemeAppearance) (first middle last : Nat) :
    List LexemeAppearance :=
  sort_heap first (middle - first) (heap_select v first middle last) middle

/-- The function `std::__introsort_loop(first, last, depth_limit, comp)`, with the threshold
`_S_threshold = 16`. -/
def introsort_loop :
    Nat → List LexemeAppearance → Nat → Nat → Nat → List LexemeAppearance
  | 0, v, _, _, _ => v
  | fuel + 1, v, first, last, depth_limit =>
    if last - first > 16 then
      if depth_limit = 0 then
        partial_sort v first last last
      else
        match unguarded_partition_pivot v first last with
        | (v, cut) =>
          introsort_loop fuel (introsort_loop fuel v cut last (depth_limit - 1)) first cut
            (depth_limit - 1)
    else
      v

/-- Model of `std::sort(first, last, comp)` as libstdc++ implements it: `std::__introsort_loop`
partitions the range around medians of three down to pieces of at most 16 elements (heap sort
taking over once the depth limit `2 * std::__lg(n)` is used up), then
`std::__final_insertion_sort`, a stable insertion sort, runs over the whole range. On a range
of at most 16 elements only the insertion sort runs. The order of elements that compare
equivalent, which the C++ standard leaves open, is the one of this implementation. -/
def std_sort (v : List LexemeAppearance) : List LexemeAppearance :=
  if v.length = 0 then
    v
  else
    (introsort_loop v.length v 0 v.length (lg v.length v.length * 2)).insertionSort sorted_before

/-- The member `get_ordered_table()`: sorts the member in place and returns a reference to it; the result is
the sequence seen through the reference and the table afterwards. -/
def LexemeTable.get_ordered_table (self : LexemeTable) : List LexemeAppearance × LexemeTable :=
  let sorted := std_sort self.table
  (sorted, ⟨sorted⟩)

/-! ## The classification driver -/

/-- The eight global `std::regex` objects of the source. -/
inductive Regex
  | REG_NUMBER
  | REG_KEYWORD
  | REG_COMMENT
  | REG_STR_CHAR
  | REG_OPERATOR
  | REG_DELIMITER
  | REG_IDENTIFIER
  | REG_DIRECTIVE
  deriving DecidableEq, Repr

/-- The matches a `std::regex_iterator` over the whole text yields for a pattern, in iteration
order, each as `(position(1), length(1))`. -/
abbrev RegexIterator := Regex → Text → List (Nat × Nat)

/-- The `switch (type)` at the head of `analyze_vb_lexemes_helper`. -/
def select_regex : LexemeType → Regex
  | .NUMBER => .REG_NUMBER
  | .KEYWORD => .REG_KEYWORD
  | .COMMENT => .REG_COMMENT
  | .STR_CHAR => .REG_STR_CHAR
  | .OPERATOR => .REG_OPERATOR
  | .DELIMITER => .REG_DELIMITER
  | .IDENTIFIER => .REG_IDENTIFIER
  | .DIRECTIVE => .REG_DIRECTIVE

/-- The `for` loop of `analyze_vb_lexemes_helper` over the remaining matches: the value of
`addLexeme` is discarded, an exception leaves the loop. -/
def helper_loop (type : LexemeType) :
    List (Nat × Nat) → LexemeTable → Except String Unit × LexemeTable
  | [], table => (.ok (), table)
  | (position, len) :: rest, table =>
    match table.addLexeme type position len with
    | (.error what, table) => (.error what, table)
    | (.ok _, table) => helper_loop type rest table

/-- The function `void analyze_vb_lexemes_helper(vb_code, type, table)`: the pattern is chosen
by the type and every match is offered to the table. -/
def analyze_vb_lexemes_helper (regex_iterator : RegexIterator) (vb_code : Text)
    (type : LexemeType) (table : LexemeTable) : Except String Unit × LexemeTable :=
  helper_loop type (regex_iterator (select_regex type) vb_code) table

/-- The function `LexemeTable analyze_vb_lexemes(vb_code)`: the table is a local, so an exception leaves no
table behind. -/
def analyze_vb_lexemes (regex_iterator : RegexIterator) (vb_code : Text) :
    Except String LexemeTable :=
  let table := LexemeTable.empty
  match analyze_vb_lexemes_helper regex_iterator vb_code .DIRECTIVE table with
  | (.error what, _) => .error what
  | (.ok _, table) =>
  match analyze_vb_lexemes_helper regex_iterator vb_code .COMMENT table with
  | (.error what, _) => .error what
  | (.ok _, table) =>
  match analyze_vb_lexemes_helper regex_iterator vb_code .STR_CHAR table with
  | (.error what, _) => .error what
  | (.ok _, table) =>
  match analyze_vb_lexemes_helper regex_iterator vb_code .NUMBER table with
  | (.error what, _) => .error what
  | (.ok _, table) =>
  match analyze_vb_lexemes_helper regex_iterator vb_code .OPERATOR table with
  | (.error what, _) => .error what
  | (.ok _, table) =>
  match analyze_vb_lexemes_helper regex_iterator vb_code .KEYWORD table with
  | (.error what, _) => .error what
  | (.ok _, table) =>
  match analyze_vb_lexemes_helper regex_iterator vb_code .IDENTIFIER table with
  | (.error what, _) => .error what
  | (.ok _, table) =>
  match analyze_vb_lexemes_helper regex_iterator vb_code .DELIMITER table with
  | (.error what, _) => .error what
  | (.ok _, table) => .ok table

/-! ## The renderer -/

/-- The enumeration `BackgroundColor`. -/
inductive BackgroundColor
  | RESET
  | RED
  | GREEN
  | YELLOW
  | BLUE
  | MAGENTA
  | CYAN
  | BRIGHT_CYAN
  | BRIGHT_GREEN
  deriving DecidableEq, Repr

/-- The `color_code` chosen by the `switch` of `set_background_color`. -/
def color_code : BackgroundColor → String
  | .RESET => "0"
  | .RED => "31"
  | .GREEN => "32"
  | .BRIGHT_GREEN => "102"
  | .YELLOW => "43"
  | .BLUE => "104"
  | .MAGENTA => "45"
  | .CYAN => "46"
  | .BRIGHT_CYAN => "106"

/-- The colour `set_background_for_lexeme(type)` passes to `set_background_color`. -/
def lexeme_color : LexemeType → BackgroundColor
  | .NUMBER => .CYAN
  | .KEYWORD => .YELLOW
  | .COMMENT => .GREEN
  | .STR_CHAR => .BRIGHT_CYAN
  | .OPERATOR => .BLUE
  | .DELIMITER => .MAGENTA
  | .IDENTIFIER => .BRIGHT_GREEN
  | .DIRECTIVE => .RED

/-- One item written to `std::cout` by the renderer: the escape sequence of
`set_background_color(color)`, or a piece of the text. -/
inductive Output
  | escape (color : BackgroundColor)
  | literal (fragment : Text)
  deriving DecidableEq, Repr

/-- The characters `set_background_color(color)` writes. -/
def escape_sequence (color : BackgroundColor) : String :=
  "\x1b[" ++ color_code color ++ "m"

/-- The constant `std::string::npos`. -/
def npos : Nat := SIZE_MOD - 1

/-- The call `text.substr(pos, n)`: throws `std::out_of_range` when `pos > size()` (the wording
of the message is the library's), and otherwise returns at most `n` characters from `pos` on. -/
def substr (text : Text) (pos n : Nat) : Except String Text :=
  if pos > text.length then
    .error "basic_string::substr"
  else
    .ok ((text.drop pos).take n)

/-- The range-`for` of `print_highlighted_text` over the remaining items, with the current
`next_pos`, followed by the two statements after the loop: the exception state and everything
written to `std::cout`. -/
def print_loop (text : Text) : List LexemeAppearance → Nat → Except String Unit × List Output
  | [], next_pos =>
    match substr text next_pos npos with
    | .error what => (.error what, [.escape .RESET])
    | .ok rest => (.ok (), [.escape .RESET, .literal rest])
  | item :: items, next_pos =>
    match substr text next_pos (size_sub item.position next_pos) with
    | .error what => (.error what, [.escape .RESET])
    | .ok gap =>
      match substr text item.position item.len with
      | .error what =>
        (.error what, [.escape .RESET, .literal gap, .escape (lexeme_color item.type)])
      | .ok lexeme =>
        let (status, out) := print_loop text items (size_add item.position item.len)
        (status, [.escape .RESET, .literal gap, .escape (lexeme_color item.type),
          .literal lexeme] ++ out)

/-- The function `void print_highlighted_text(text, table)`: the exception state, everything written to
`std::cout`, and the table afterwards (it is sorted in place). -/
def print_highlighted_text (text : Text) (table : LexemeTable) :
    Except String Unit × List Output × LexemeTable :=
  let (table_v, table) := table.get_ordered_table
  let (status, out) := print_loop text table_v 0
  (status, out, table)

/-- The literal text fragments among the items written, in emission order. -/
def fragments : List Output → List Text
  | [] => []
  | .escape _ :: out => fragments out
  | .literal fragment :: out => fragment :: fragments out

/-- Trace of the subtraction `item.position - next_pos` through the loop of
`print_highlighted_text`: true when it never wraps around. -/
def no_underflow : List LexemeAppearance → Nat → Bool
  | [], _ => true
  | item :: items, next_pos =>
    decide (next_pos ≤ item.position) && no_underflow items (size_add item.position item.len)

/-! ## Notions the statements use -/

/-- The order in which `analyze_vb_lexemes` calls its helper. -/
def priority_order : List LexemeType :=
  [.DIRECTIVE, .COMMENT, .STR_CHAR, .NUMBER, .OPERATOR, .KEYWORD, .IDENTIFIER, .DELIMITER]

/-- Rank of a category in `priority_order`. -/
def priority : LexemeType → Nat
  | .DIRECTIVE => 0
  | .COMMENT => 1
  | .STR_CHAR => 2
  | .NUMBER => 3
  | .OPERATOR => 4
  | .KEYWORD => 5
  | .IDENTIFIER => 6
  | .DELIMITER => 7

/-- The candidates of one category, tagged with it, in the order its matcher produced them. -/
def candidates_of (regex_iterator : RegexIterator) (vb_code : Text) (type : LexemeType) :
    List LexemeAppearance :=
  (regex_iterator (select_regex type) vb_code).map (fun c => ⟨type, c.1, c.2⟩)

/-- All candidates of a run, category by category in priority order. -/
def all_candidates (regex_iterator : RegexIterator) (vb_code : Text) : List LexemeAppearance :=
  priority_order.flatMap (candidates_of regex_iterator vb_code)

/-- A client calling `addLexeme` once per element of `calls` (the arguments of a call are the
span it proposes), going on after an exception: the table afterwards. -/
def add_all (calls : List LexemeAppearance) (table : LexemeTable) : LexemeTable :=
  calls.foldl (fun t c => (t.addLexeme c.type c.position c.len).2) table

/-- Two spans do not intersect, as ranges of natural numbers. -/
def disjoint (a b : LexemeAppearance) : Prop :=
  a.position + a.len ≤ b.position ∨ b.position + b.len ≤ a.position

instance : DecidableRel disjoint := fun a b => by
  unfold disjoint
  exact inferInstance

/-- Entries at distinct indices never intersect. -/
def non_overlapping (v : List LexemeAppearance) : Prop :=
  ∀ (i j : Nat) (hi : i < v.length) (hj : j < v.length), i ≠ j →
    disjoint (v.get ⟨i, hi⟩) (v.get ⟨j, hj⟩)

/-- The fold the driver is compared with: starting from `table`, one `addLexeme` call per
candidate of the list, in order; the first exception ends it. -/
def offer_all : List LexemeAppearance → LexemeTable → Except String Unit × LexemeTable
  | [], table => (.ok (), table)
  | c :: rest, table =>
    match table.addLexeme c.type c.position c.len with
    | (.error what, table) => (.error what, table)
    | (.ok _, table) => offer_all rest table

/-- What `analyze_vb_lexemes` makes of the outcome of its helper calls: the table is returned
only when no exception was thrown. -/
def run_result : Except String Unit × LexemeTable → Except String LexemeTable
  | (.error what, _) => .error what
  | (.ok _, table) => .ok table

/-- The driver as the specification words it: from the empty table, one `addLexeme` call per
candidate over the concatenation of the eight candidate lists in priority order. -/
def classify_by_fold (regex_iterator : RegexIterator) (vb_code : Text) :
    Except String LexemeTable :=
  run_result (offer_all (all_candidates regex_iterator vb_code) LexemeTable.empty)

/-- An instance of the `RegexIterator` parameter: on the sample texts `Dim x = 5 ' set x` and
`' Dim x` it lists the first-group matches of the patterns of the source (`REG_DIRECTIVE`
and `REG_STR_CHAR` match nowhere in either, `REG_NUMBER` and `REG_OPERATOR` nowhere in the
second); it reports no match on any other text. -/
def sample_matches : RegexIterator := fun regex vb_code =>
  if vb_code = "Dim x = 5 ' set x".toList then
    match regex with
    | .REG_COMMENT => [(10, 7)]
    | .REG_NUMBER => [(8, 1)]
    | .REG_OPERATOR => [(6, 1)]
    | .REG_KEYWORD => [(0, 3)]
    | .REG_IDENTIFIER => [(0, 3), (4, 1), (12, 3), (16, 1)]
    | .REG_DELIMITER => [(10, 1)]
    | _ => []
  else if vb_code = "' Dim x".toList then
    match regex with
    | .REG_COMMENT => [(0, 7)]
    | .REG_KEYWORD => [(2, 3)]
    | .REG_IDENTIFIER => [(2, 3), (6, 1)]
    | .REG_DELIMITER => [(0, 1)]
    | _ => []
  else
    []

/-- An instance of the `RegexIterator` parameter with defective patterns, which no pattern of
the source is: on every text the comment pattern matches `(0, 7)`, the keyword pattern reports
an empty match at 2 and another at 9, the identifier pattern an empty match at 3. -/
def faulty_matches : RegexIterator := fun regex _ =>
  match regex with
  | .REG_COMMENT => [(0, 7)]
  | .REG_KEYWORD => [(2, 0), (9, 0)]
  | .REG_IDENTIFIER => [(3, 0)]
  | _ => []

/-- One call a client makes on a table. -/
inductive Call
  | addLexeme (type : LexemeType) (position len : Nat)
  | get_ordered_table
  deriving DecidableEq, Repr

/-- What a call gave back: the outcome of `addLexeme`, or the sequence seen through the
reference `get_ordered_table` returns. -/
inductive Returned
  | ofAdd (result : Except String Bool)
  | ofOrdered (view : List LexemeAppearance)
  deriving DecidableEq

/-- One call on the table: what it gave back and the table afterwards. -/
def Call.run (t : LexemeTable) : Call → Returned × LexemeTable
  | .addLexeme type position len =>
    (.ofAdd (t.addLexeme type position len).1, (t.addLexeme type position len).2)
  | .get_ordered_table => (.ofOrdered t.get_ordered_table.1, t.get_ordered_table.2)

/-- A sequence of calls, in order: what each gave back and the table at the end. -/
def run_calls : List Call → LexemeTable → List Returned × LexemeTable
  | [], t => ([], t)
  | c :: cs, t => ((c.run t).1 :: (run_calls cs (c.run t).2).1, (run_calls cs (c.run t).2).2)

/-- The spans for which `addLexeme` returned true, given the calls and what they gave back. -/
def accepted : List Call → List Returned → List LexemeAppearance
  | .addLexeme type position len :: cs, .ofAdd (.ok true) :: rs =>
    ⟨type, position, len⟩ :: accepted cs rs
  | _ :: cs, _ :: rs => accepted cs rs
  | _, _ => []

/-- The outcomes of the `addLexeme` calls among what a sequence of calls gave back. -/
def add_returns : List Returned → List (Except String Bool)
  | [] => []
  | .ofAdd result :: rs => result :: add_returns rs
  | .ofOrdered _ :: rs => add_returns rs

/-- The same sequence of calls with every `get_ordered_table` call left out. -/
def without_ordering : List Call → List Call
  | [] => []
  | .addLexeme type position len :: cs => .addLexeme type position len :: without_ordering cs
  | .get_ordered_table :: cs => without_ordering cs

/-- Seventeen calls that all propose position 100 with lengths from `2^64 - 100` on: every end
wraps around to a value of at most 16, so each call passes the overlap check against the
spans stored before it. -/
def tied_calls : List LexemeAppearance :=
  [⟨.NUMBER, 100, 18446744073709551516⟩, ⟨.NUMBER, 100, 18446744073709551517⟩,
    ⟨.NUMBER, 100, 18446744073709551518⟩, ⟨.NUMBER, 100, 18446744073709551519⟩,
    ⟨.NUMBER, 100, 18446744073709551520⟩, ⟨.NUMBER, 100, 18446744073709551521⟩,
    ⟨.NUMBER, 100, 18446744073709551522⟩, ⟨.NUMBER, 100, 18446744073709551523⟩,
    ⟨.NUMBER, 100, 18446744073709551524⟩, ⟨.NUMBER, 100, 18446744073709551525⟩,
    ⟨.NUMBER, 100, 18446744073709551526⟩, ⟨.NUMBER, 100, 18446744073709551527⟩,
    ⟨.NUMBER, 100, 18446744073709551528⟩, ⟨.NUMBER, 100, 18446744073709551529⟩,
    ⟨.NUMBER, 100, 18446744073709551530⟩, ⟨.NUMBER, 100, 18446744073709551531⟩,
    ⟨.NUMBER, 100, 18446744073709551532⟩]

/-- Invariant of the stored vector: pairwise disjoint spans of positive length whose end does
not exceed the largest `size_t`. -/
def well_formed (v : List LexemeAppearance) : Prop :=
  v.Pairwise disjoint ∧ ∀ la ∈ v, 0 < la.len ∧ la.position + la.len < SIZE_MOD

instance : IsTotal LexemeAppearance sorted_before :=
  ⟨fun a b => by
    simp only [sorted_before, comp, decide_eq_false_iff_not, Nat.not_lt]
    exact Nat.le_total a.position b.position⟩

instance : IsTrans LexemeAppearance sorted_before :=
  ⟨fun a b c => by
    simp only [sorted_before, comp, decide_eq_false_iff_not, Nat.not_lt]
    exact Nat.le_trans⟩

/-- The spans of `items` follow one another from `next_pos` on, each starting no earlier than
the end of the one before, and all end inside a text of `n` characters. -/
def chained (n : Nat) : List LexemeAppearance → Nat → Prop
  | [], next_pos => next_pos ≤ n
  | item :: items, next_pos =>
    next_pos ≤ item.position ∧ item.position + item.len ≤ n ∧
      chained n items (item.position + item.len)

/-- Rendering `text` against `table` is lossless: no `substr` throws, the subtraction
`item.position - next_pos` never wraps around, and the literal fragments written, concatenated
in emission order, are the text. -/
def lossless (text : Text) (table : LexemeTable) : Prop :=
  (print_highlighted_text text table).1 = .ok () ∧
  no_underflow table.get_ordered_table.1 0 = true ∧
  (fragments (print_highlighted_text text table).2.1).flatten = text

instance (text : Text) (table : LexemeTable) : Decidable (lossless text table) := by
  unfold lossless
  exact inferInstance

/-- The fragments written, each paired with the colour of the last escape sequence written
before it (`color` when there is none yet). A fragment is plain when that colour is `RESET`. -/
def annotated_from (color : BackgroundColor) : List Output → List (BackgroundColor × Text)
  | [] => []
  | .escape c :: out => annotated_from c out
  | .literal fragment :: out => (color, fragment) :: annotated_from color out

/-- The fragments written to a terminal in its default colours, each with its colour. -/
def annotated (out : List Output) : List (BackgroundColor × Text) :=
  annotated_from .RESET out

/-- The characters of `text` at the offsets `a ≤ offset < b`. -/
def slice (text : Text) (a b : Nat) : Text :=
  (text.drop a).take (b - a)

/-- End of the span before index `i` of `v` (`start` for `i = 0`): the value of `next_pos` when
the renderer reaches the span at index `i`. -/
def end_before (start : Nat) (v : List LexemeAppearance) : Nat → Nat
  | 0 => start
  | i + 1 =>
    match v[i]? with
    | some s => s.position + s.len
    | none => 0

/-- Every span of the sequence starts where the one before it ends. -/
def adjacent : List LexemeAppearance → Prop
  | [] => True
  | [_] => True
  | a :: b :: rest => b.position = a.position + a.len ∧ adjacent (b :: rest)

instance adjacent_decidable : (v : List LexemeAppearance) → Decidable (adjacent v)
  | [] => isTrue trivial
  | [_] => isTrue trivial
  | a :: b :: rest =>
    match Nat.decEq b.position (a.position + a.len), adjacent_decidable (b :: rest) with
    | isTrue h1, isTrue h2 => isTrue ⟨h1, h2⟩
    | isFalse h1, _ => isFalse (fun h => h1 h.1)
    | _, isFalse h2 => isFalse (fun h => h2 h.2)

/-- An instance of the `RegexIterator` parameter: the first-group matches of the patterns of the
source on the sample texts `1+2`, `' Dim x = 5`, `#Const A = 1` and the five characters
`"Dim"`; no match on any other text (the patterns have none on the empty text). -/
def scenario_matches : RegexIterator := fun regex vb_code =>
  if vb_code = "1+2".toList then
    match regex with
    | .REG_NUMBER => [(0, 1), (2, 1)]
    | .REG_OPERATOR => [(1, 1)]
    | _ => []
  else if vb_code = "' Dim x = 5".toList then
    match regex with
    | .REG_COMMENT => [(0, 11)]
    | .REG_NUMBER => [(10, 1)]
    | .REG_OPERATOR => [(8, 1)]
    | .REG_KEYWORD => [(2, 3)]
    | .REG_IDENTIFIER => [(2, 3), (6, 1)]
    | .REG_DELIMITER => [(0, 1)]
    | _ => []
  else if vb_code = ['"', 'D', 'i', 'm', '"'] then
    match regex with
    | .REG_STR_CHAR => [(0, 5)]
    | .REG_IDENTIFIER => [(1, 3)]
    | .REG_DELIMITER => [(0, 1), (4, 1)]
    | _ => []
  else if vb_code = "#Const A = 1".toList then
    match regex with
    | .REG_DIRECTIVE => [(0, 12)]
    | .REG_NUMBER => [(11, 1)]
    | .REG_OPERATOR => [(9, 1)]
    | .REG_KEYWORD => [(1, 5)]
    | .REG_IDENTIFIER => [(1, 5), (7, 1)]
    | _ => []
  else
    []

/-! ## Lemmas on `addLexeme` -/

theorem disjoint_symm {a b : LexemeAppearance} (h : disjoint a b) : disjoint b a :=
  Or.symm h

theorem size_add_eq {a b : Nat} (h : a + b < SIZE_MOD) : size_add a b = a + b :=
  Nat.mod_eq_of_lt h

theorem overlap_free_iff {position len : Nat} {la : LexemeAppearance}
    (hc : position + len < SIZE_MOD) (hla : la.position + la.len < SIZE_MOD) :
    overlap_free position len la = true ↔
      (la.position ≥ position + len ∨ la.position + la.len ≤ position) := by
  simp [overlap_free, size_add_eq hc, size_add_eq hla]

theorem addLexeme_zero (t : LexemeTable) (type : LexemeType) (position : Nat) :
    t.addLexeme type position 0 = (.error (zero_length_what type position), t) := by
  simp [LexemeTable.addLexeme]

theorem addLexeme_accept {t : LexemeTable} {type : LexemeType} {position len : Nat}
    (hl : len ≠ 0) (h : t.table.all (overlap_free position len) = true) :
    t.addLexeme type position len = (.ok true, ⟨t.table ++ [⟨type, position, len⟩]⟩) := by
  simp [LexemeTable.addLexeme, hl, h]

theorem addLexeme_reject {t : LexemeTable} {type : LexemeType} {position len : Nat}
    (hl : len ≠ 0) (h : t.table.all (overlap_free position len) = false) :
    t.addLexeme type position len = (.ok false, t) := by
  simp [LexemeTable.addLexeme, hl, h]

/-- The three outcomes of a call. -/
theorem addLexeme_cases (t : LexemeTable) (type : LexemeType) (position len : Nat) :
    (len = 0 ∧ t.addLexeme type position len = (.error (zero_length_what type position), t)) ∨
    (len ≠ 0 ∧ t.table.all (overlap_free position len) = false ∧
      t.addLexeme type position len = (.ok false, t)) ∨
    (len ≠ 0 ∧ t.table.all (overlap_free position len) = true ∧
      t.addLexeme type position len = (.ok true, ⟨t.table ++ [⟨type, position, len⟩]⟩)) := by
  by_cases hl : len = 0
  · subst hl
    exact Or.inl ⟨rfl, addLexeme_zero t type position⟩
  · cases h : t.table.all (overlap_free position len)
    · exact Or.inr (Or.inl ⟨hl, rfl, addLexeme_reject hl h⟩)
    · exact Or.inr (Or.inr ⟨hl, rfl, addLexeme_accept hl h⟩)

/-- A call keeps the invariant when the candidate's end does not overflow. -/
theorem addLexeme_well_formed {t : LexemeTable} (type : LexemeType) {position len : Nat}
    (hc : position + len < SIZE_MOD) (ht : well_formed t.table) :
    well_formed (t.addLexeme type position len).2.table := by
  rcases addLexeme_cases t type position len with ⟨_, h⟩ | ⟨_, _, h⟩ | ⟨hl, hall, h⟩
  · rw [h]; exact ht
  · rw [h]; exact ht
  · rw [h]
    obtain ⟨hp, hb⟩ := ht
    rw [List.all_eq_true] at hall
    refine ⟨?_, ?_⟩
    · refine List.pairwise_append.mpr ⟨hp, List.pairwise_singleton _ _, ?_⟩
      intro a ha b hb'
      rw [List.mem_singleton] at hb'
      subst hb'
      have h1 := (overlap_free_iff hc (hb a ha).2).mp (hall a ha)
      rcases h1 with h1 | h1
      · exact Or.inr h1
      · exact Or.inl h1
    · intro la hla
      rcases List.mem_append.mp hla with hla | hla
      · exact hb la hla
      · rw [List.mem_singleton] at hla
        subst hla
        exact ⟨Nat.pos_of_ne_zero hl, hc⟩

theorem add_all_nil (t : LexemeTable) : add_all [] t = t := rfl

theorem add_all_cons (c : LexemeAppearance) (calls : List LexemeAppearance) (t : LexemeTable) :
    add_all (c :: calls) t = add_all calls (t.addLexeme c.type c.position c.len).2 := rfl

theorem add_all_append (xs ys : List LexemeAppearance) (t : LexemeTable) :
    add_all (xs ++ ys) t = add_all ys (add_all xs t) := by
  simp [add_all, List.foldl_append]

/-- Any sequence of calls whose ends do not overflow keeps the invariant. -/
theorem add_all_well_formed (calls : List LexemeAppearance) :
    ∀ t : LexemeTable, (∀ c ∈ calls, c.position + c.len < SIZE_MOD) →
      well_formed t.table → well_formed (add_all calls t).table := by
  induction calls with
  | nil => intro t _ ht; exact ht
  | cons c rest ih =>
    intro t hc ht
    rw [add_all_cons]
    exact ih _ (fun d hd => hc d (List.mem_cons_of_mem _ hd))
      (addLexeme_well_formed c.type (hc c (List.mem_cons_self _ _)) ht)

theorem well_formed_nil : well_formed [] :=
  ⟨List.Pairwise.nil, fun _ h => absurd h (List.not_mem_nil _)⟩

/-- Pairwise disjointness in index form. -/
theorem non_overlapping_of_pairwise {v : List LexemeAppearance} (h : v.Pairwise disjoint) :
    non_overlapping v := by
  intro i j hi hj hij
  rw [List.pairwise_iff_get] at h
  rcases Nat.lt_or_gt_of_ne hij with hlt | hgt
  · exact h ⟨i, hi⟩ ⟨j, hj⟩ hlt
  · exact disjoint_symm (h ⟨j, hj⟩ ⟨i, hi⟩ hgt)

/-- A well-formed vector holds no span twice. -/
theorem nodup_of_well_formed {v : List LexemeAppearance} (h : well_formed v) : v.Nodup := by
  obtain ⟨hp, hb⟩ := h
  induction v with
  | nil => exact List.nodup_nil
  | cons a rest ih =>
    rw [List.pairwise_cons] at hp
    refine List.nodup_cons.mpr ⟨?_, ih hp.2 (fun la hla => hb la (List.mem_cons_of_mem _ hla))⟩
    intro ha
    have hd := hp.1 a ha
    have hpos := (hb a (List.mem_cons_self _ _)).1
    unfold disjoint at hd
    omega

/-! ## Lemmas on the driver -/

theorem offer_all_append (xs ys : List LexemeAppearance) :
    ∀ t : LexemeTable, offer_all (xs ++ ys) t =
      match offer_all xs t with
      | (.error what, t1) => (.error what, t1)
      | (.ok _, t1) => offer_all ys t1 := by
  induction xs with
  | nil => intro t; rfl
  | cons c rest ih =>
    intro t
    simp only [List.cons_append, offer_all]
    rcases h : t.addLexeme c.type c.position c.len with ⟨r, t1⟩
    cases r with
    | error what => rfl
    | ok b => exact ih t1

theorem helper_loop_eq_offer_all (type : LexemeType) (cs : List (Nat × Nat)) :
    ∀ t : LexemeTable,
      helper_loop type cs t = offer_all (cs.map (fun c => ⟨type, c.1, c.2⟩)) t := by
  induction cs with
  | nil => intro t; rfl
  | cons c rest ih =>
    intro t
    obtain ⟨position, len⟩ := c
    simp only [helper_loop, List.map_cons, offer_all]
    rcases h : t.addLexeme type position len with ⟨r, t1⟩
    cases r with
    | error what => rfl
    | ok b => exact ih t1

theorem helper_eq_offer_all (regex_iterator : RegexIterator) (vb_code : Text)
    (type : LexemeType) (t : LexemeTable) :
    analyze_vb_lexemes_helper regex_iterator vb_code type t =
      offer_all (candidates_of regex_iterator vb_code type) t :=
  helper_loop_eq_offer_all type _ t

theorem run_result_append (xs ys : List LexemeAppearance) (t : LexemeTable) :
    run_result (offer_all (xs ++ ys) t) =
      match offer_all xs t with
      | (.error what, _) => .error what
      | (.ok _, t1) => run_result (offer_all ys t1) := by
  rw [offer_all_append]
  rcases offer_all xs t with ⟨r, t1⟩
  cases r <;> rfl

/-- The eight helper calls amount to one fold over all candidates. -/
theorem analyze_eq_fold (regex_iterator : RegexIterator) (vb_code : Text) :
    analyze_vb_lexemes regex_iterator vb_code =
      run_result (offer_all (all_candidates regex_iterator vb_code) LexemeTable.empty) := by
  simp only [analyze_vb_lexemes, helper_eq_offer_all, all_candidates,
    priority_order, List.flatMap_cons, List.flatMap_nil, run_result_append]
  rfl

/-- The fold up to the first zero-length candidate: without one it ends normally in the table
`add_all` computes, with one it throws the exception of that candidate. -/
theorem offer_all_find (cs : List LexemeAppearance) :
    ∀ t : LexemeTable,
      match cs.find? (fun c => decide (c.len = 0)) with
      | none => offer_all cs t = (.ok (), add_all cs t)
      | some c => (offer_all cs t).1 = .error (zero_length_what c.type c.position) := by
  induction cs with
  | nil => intro t; rfl
  | cons c rest ih =>
    intro t
    by_cases hl : c.len = 0
    · simp only [List.find?, hl, decide_True, offer_all, addLexeme_zero]
    · have hf : (c :: rest).find? (fun c => decide (c.len = 0))
          = rest.find? (fun c => decide (c.len = 0)) := by
        simp [List.find?, hl]
      rw [hf]
      have ih1 := ih (t.addLexeme c.type c.position c.len).2
      rcases addLexeme_cases t c.type c.position c.len with ⟨h0, _⟩ | ⟨_, _, h⟩ | ⟨_, _, h⟩
      · exact absurd h0 hl
      · simp only [offer_all, add_all_cons, h] at ih1 ⊢
        exact ih1
      · simp only [offer_all, add_all_cons, h] at ih1 ⊢
        exact ih1

theorem find_zero_none {cs : List LexemeAppearance} :
    cs.find? (fun c => decide (c.len = 0)) = none ↔ ∀ c ∈ cs, c.len ≠ 0 := by
  simp [List.find?_eq_none]

/-- A run returns a table exactly when no candidate has length zero, and the table is then the
one `add_all` computes from all candidates. -/
theorem analyze_ok_iff (regex_iterator : RegexIterator) (vb_code : Text) (table : LexemeTable) :
    analyze_vb_lexemes regex_iterator vb_code = .ok table ↔
      (∀ c ∈ all_candidates regex_iterator vb_code, c.len ≠ 0) ∧
        table = add_all (all_candidates regex_iterator vb_code) LexemeTable.empty := by
  rw [analyze_eq_fold]
  have h := offer_all_find (all_candidates regex_iterator vb_code) LexemeTable.empty
  cases hf : (all_candidates regex_iterator vb_code).find? (fun c => decide (c.len = 0)) with
  | none =>
    rw [hf] at h
    simp only at h
    rw [h, run_result]
    have hz := find_zero_none.mp hf
    constructor
    · intro heq
      exact ⟨hz, (Except.ok.inj heq).symm⟩
    · rintro ⟨_, heq⟩
      rw [heq]
  | some c =>
    rw [hf] at h
    simp only at h
    have hmem := List.mem_of_find?_eq_some hf
    have hc0 : c.len = 0 := by simpa using List.find?_some hf
    constructor
    · intro heq
      rcases hr : offer_all (all_candidates regex_iterator vb_code) LexemeTable.empty with ⟨r, t1⟩
      rw [hr] at h heq
      simp only at h
      subst h
      simp [run_result] at heq
    · rintro ⟨hz, _⟩
      exact absurd hc0 (hz c hmem)

/-! ## Lemmas on `std::sort` -/

theorem cons_set_perm (x : LexemeAppearance) :
    ∀ (t : List LexemeAppearance) (j : Nat) (b : LexemeAppearance), t[j]? = some b →
      (b :: t.set j x).Perm (x :: t) := by
  intro t
  induction t with
  | nil => intro j b h; simp at h
  | cons a t ih =>
    intro j b h
    cases j with
    | zero =>
      simp only [List.getElem?_cons_zero, Option.some.injEq] at h
      subst h
      exact List.Perm.swap x a t
    | succ k =>
      simp only [List.getElem?_cons_succ] at h
      simp only [List.set_cons_succ]
      exact (List.Perm.swap a b _).trans (((ih k b h).cons a).trans (List.Perm.swap x a t))

/-- Writing the element of place `j` to place `i` and `x` to place `j` rearranges the list in
which `x` is written to place `i`. -/
theorem set_set_perm (x : LexemeAppearance) :
    ∀ (l : List LexemeAppearance) (i j : Nat) (b : LexemeAppearance), i < l.length →
      l[j]? = some b → ((l.set i b).set j x).Perm (l.set i x) := by
  intro l
  induction l with
  | nil => intro i j b hi; simp at hi
  | cons a t ih =>
    intro i j b hi hj
    cases i with
    | zero =>
      cases j with
      | zero => simp
      | succ k =>
        simp only [List.getElem?_cons_succ] at hj
        simp only [List.set_cons_zero, List.set_cons_succ]
        exact cons_set_perm x t k b hj
    | succ m =>
      have hm : m < t.length := by simpa using hi
      cases j with
      | zero =>
        simp only [List.getElem?_cons_zero, Option.some.injEq] at hj
        subst hj
        simp only [List.set_cons_zero, List.set_cons_succ]
        have hget : t[m]? = some (t[m]) := List.getElem?_eq_getElem hm
        have h1 : (t[m] :: x :: t.set m a).Perm (t[m] :: a :: t.set m x) :=
          ((List.Perm.swap x (t[m]) _).trans ((cons_set_perm a t m _ hget).cons x)).trans
            (((List.Perm.swap a x t).trans ((cons_set_perm x t m _ hget).symm.cons a)).trans
              (List.Perm.swap (t[m]) a _))
        exact h1.cons_inv
      | succ k =>
        simp only [List.getElem?_cons_succ] at hj
        simp only [List.set_cons_succ]
        exact (ih m k b hm hj).cons a

theorem set_self :
    ∀ (l : List LexemeAppearance) (i : Nat) (a : LexemeAppearance), l[i]? = some a →
      l.set i a = l := by
  intro l
  induction l with
  | nil => intro i a h; simp at h
  | cons b t ih =>
    intro i a h
    cases i with
    | zero =>
      simp only [List.getElem?_cons_zero, Option.some.injEq] at h
      subst h
      rfl
    | succ k =>
      simp only [List.getElem?_cons_succ] at h
      simp only [List.set_cons_succ, ih k a h]

theorem iter_swap_perm (v : List LexemeAppearance) (i j : Nat) : (iter_swap v i j).Perm v := by
  unfold iter_swap
  split
  · next a b ha hb =>
    have hi : i < v.length := (List.getElem?_eq_some_iff.mp ha).1
    have h := set_set_perm a v i j b hi hb
    rwa [set_self v i a ha] at h
  · exact List.Perm.refl v

theorem iter_swap_length (v : List LexemeAppearance) (i j : Nat) :
    (iter_swap v i j).length = v.length := (iter_swap_perm v i j).length_eq

theorem move_median_to_first_perm (v : List LexemeAppearance) (result a b c : Nat) :
    (move_median_to_first v result a b c).Perm v := by
  unfold move_median_to_first
  repeat' split
  all_goals exact iter_swap_perm _ _ _

theorem unguarded_partition_perm (pivot : Nat) (fuel : Nat) :
    ∀ (v : List LexemeAppearance) (first last : Nat),
      (unguarded_partition pivot fuel v first last).1.Perm v := by
  induction fuel with
  | zero => intro v first last; exact List.Perm.refl v
  | succ fuel ih =>
    intro v first last
    simp only [unguarded_partition]
    split
    · exact List.Perm.refl v
    · exact (ih _ _ _).trans (iter_swap_perm _ _ _)

theorem unguarded_partition_pivot_perm (v : List LexemeAppearance) (first last : Nat) :
    (unguarded_partition_pivot v first last).1.Perm v := by
  unfold unguarded_partition_pivot
  exact (unguarded_partition_perm _ _ _ _ _).trans (move_median_to_first_perm _ _ _ _ _)

theorem bound_of_some {v : List LexemeAppearance} {i : Nat} {a : LexemeAppearance}
    (h : v[i]? = some a) : i < v.length :=
  (List.getElem?_eq_some_iff.mp h).1

/-- The hole of `std::__push_heap` ends up filled with the value: the result rearranges the
range with the value written to the hole. -/
theorem push_heap_perm (first topIndex : Nat) (value : LexemeAppearance) (fuel : Nat) :
    ∀ (v : List LexemeAppearance) (holeIndex : Nat), first + holeIndex < v.length →
      (push_heap first topIndex value fuel v holeIndex).Perm (v.set (first + holeIndex) value) := by
  induction fuel with
  | zero => intro v holeIndex _; exact List.Perm.refl _
  | succ fuel ih =>
    intro v holeIndex hb
    simp only [push_heap]
    split
    · next p hp =>
      split
      · have h1 := ih (v.set (first + holeIndex) p) ((holeIndex - 1) / 2)
          (by rw [List.length_set]; exact bound_of_some hp)
        exact h1.trans (set_set_perm value v _ _ p hb hp)
      · exact List.Perm.refl _
    · exact List.Perm.refl _

theorem adjust_heap_loop_perm (first len : Nat) (fuel : Nat) :
    ∀ (v : List LexemeAppearance) (holeIndex secondChild : Nat),
      first + holeIndex < v.length →
      first + (adjust_heap_loop first len fuel v holeIndex secondChild).2.1 <
          (adjust_heap_loop first len fuel v holeIndex secondChild).1.length ∧
        ∀ value : LexemeAppearance,
          ((adjust_heap_loop first len fuel v holeIndex secondChild).1.set
              (first + (adjust_heap_loop first len fuel v holeIndex secondChild).2.1) value).Perm
            (v.set (first + holeIndex) value) := by
  induction fuel with
  | zero => intro v holeIndex secondChild hb; exact ⟨hb, fun _ => List.Perm.refl _⟩
  | succ fuel ih =>
    intro v holeIndex secondChild hb
    simp only [adjust_heap_loop]
    split
    · generalize (if comp_at v (first + 2 * (secondChild + 1))
          (first + (2 * (secondChild + 1) - 1)) = true then 2 * (secondChild + 1) - 1
        else 2 * (secondChild + 1)) = sc2
      split
      · next child hc =>
        have h1 := ih (v.set (first + holeIndex) child) sc2 sc2
          (by rw [List.length_set]; exact bound_of_some hc)
        exact ⟨h1.1, fun value => (h1.2 value).trans (set_set_perm value v _ _ child hb hc)⟩
      · exact ⟨hb, fun _ => List.Perm.refl _⟩
    · exact ⟨hb, fun _ => List.Perm.refl _⟩

/-- The function `std::__adjust_heap` rearranges the range with the value written to the
hole. -/
theorem adjust_heap_perm (v : List LexemeAppearance) (first holeIndex len : Nat)
    (value : LexemeAppearance) (hb : first + holeIndex < v.length) :
    (adjust_heap v first holeIndex len value).Perm (v.set (first + holeIndex) value) := by
  have hloop := adjust_heap_loop_perm first len len v holeIndex holeIndex hb
  unfold adjust_heap
  rcases h : adjust_heap_loop first len len v holeIndex holeIndex with ⟨v1, hole1, sc1⟩
  rw [h] at hloop
  simp only at hloop ⊢
  split
  · split
    · next child hc =>
      have h1 := push_heap_perm first holeIndex value len (v1.set (first + hole1) child)
        (2 * (sc1 + 1) - 1) (by rw [List.length_set]; exact bound_of_some hc)
      exact (h1.trans (set_set_perm value v1 _ _ child hloop.1 hc)).trans (hloop.2 value)
    · exact (push_heap_perm first holeIndex value len v1 hole1 hloop.1).trans (hloop.2 value)
  · exact (push_heap_perm first holeIndex value len v1 hole1 hloop.1).trans (hloop.2 value)

theorem pop_heap_perm (v : List LexemeAppearance) (first last result : Nat) :
    (pop_heap v first last result).Perm v := by
  unfold pop_heap
  split
  · next value top hv ht =>
    have hr : result < v.length := bound_of_some hv
    have h1 := adjust_heap_perm (v.set result top) first 0 (last - first) value
      (by rw [List.length_set]; exact bound_of_some ht)
    have h2 := set_set_perm value v result (first + 0) top hr ht
    rw [set_self v result value hv] at h2
    exact h1.trans h2
  · exact List.Perm.refl v

theorem make_heap_loop_perm (first len : Nat) (fuel : Nat) :
    ∀ (v : List LexemeAppearance) (parent : Nat),
      (make_heap_loop first len fuel v parent).Perm v := by
  induction fuel with
  | zero => intro v parent; exact List.Perm.refl v
  | succ fuel ih =>
    intro v parent
    simp only [make_heap_loop]
    split
    · next value hv =>
      have h1 := adjust_heap_perm v first parent len value (bound_of_some hv)
      rw [set_self v _ value hv] at h1
      split
      · exact h1
      · exact (ih _ _).trans h1
    · exact List.Perm.refl v

theorem make_heap_perm (v : List LexemeAppearance) (first last : Nat) :
    (make_heap v first last).Perm v := by
  unfold make_heap
  split
  · exact List.Perm.refl v
  · exact make_heap_loop_perm _ _ _ _ _

theorem sort_heap_perm (first : Nat) (fuel : Nat) :
    ∀ (v : List LexemeAppearance) (last : Nat), (sort_heap first fuel v last).Perm v := by
  induction fuel with
  | zero => intro v last; exact List.Perm.refl v
  | succ fuel ih =>
    intro v last
    simp only [sort_heap]
    split
    · exact (ih _ _).trans (pop_heap_perm _ _ _ _)
    · exact List.Perm.refl v

theorem heap_select_loop_perm (first middle last : Nat) (fuel : Nat) :
    ∀ (v : List LexemeAppearance) (i : Nat),
      (heap_select_loop first middle last fuel v i).Perm v := by
  induction fuel with
  | zero => intro v i; exact List.Perm.refl v
  | succ fuel ih =>
    intro v i
    simp only [heap_select_loop]
    split
    · refine (ih _ _).trans ?_
      split
      · exact pop_heap_perm _ _ _ _
      · exact List.Perm.refl v
    · exact List.Perm.refl v

theorem partial_sort_perm (v : List LexemeAppearance) (first middle last : Nat) :
    (partial_sort v first middle last).Perm v := by
  unfold partial_sort heap_select
  exact (sort_heap_perm _ _ _ _).trans
    ((heap_select_loop_perm _ _ _ _ _ _).trans (make_heap_perm _ _ _))

theorem introsort_loop_perm (fuel : Nat) :
    ∀ (v : List LexemeAppearance) (first last depth_limit : Nat),
      (introsort_loop fuel v first last depth_limit).Perm v := by
  induction fuel with
  | zero => intro v _ _ _; exact List.Perm.refl v
  | succ fuel ih =>
    intro v first last depth_limit
    simp only [introsort_loop]
    split
    · split
      · exact partial_sort_perm _ _ _ _
      · have hp := unguarded_partition_pivot_perm v first last
        rcases h : unguarded_partition_pivot v first last with ⟨v1, cut⟩
        rw [h] at hp
        exact ((ih _ _ _ _).trans (ih _ _ _ _)).trans hp
    · exact List.Perm.refl v

/-- On a range of at most 16 elements `std::__introsort_loop` does nothing. -/
theorem introsort_loop_small (fuel : Nat) (v : List LexemeAppearance) (first last depth_limit : Nat)
    (h : last - first ≤ 16) : introsort_loop fuel v first last depth_limit = v := by
  cases fuel with
  | zero => rfl
  | succ fuel => simp [introsort_loop, Nat.not_lt.mpr h]

theorem std_sort_small (v : List LexemeAppearance) (h : v.length ≤ 16) :
    std_sort v = v.insertionSort sorted_before := by
  unfold std_sort
  split
  · next h0 =>
    rw [List.length_eq_zero.mp h0]
    rfl
  · rw [introsort_loop_small _ _ _ _ _ (by omega)]

theorem std_sort_perm (v : List LexemeAppearance) : (std_sort v).Perm v := by
  unfold std_sort
  split
  · exact List.Perm.refl v
  · exact (List.perm_insertionSort sorted_before _).trans (introsort_loop_perm _ _ _ _ _)

theorem std_sort_sorted (v : List LexemeAppearance) : (std_sort v).Sorted sorted_before := by
  unfold std_sort
  split
  · next h0 =>
    rw [List.length_eq_zero.mp h0]
    exact List.sorted_nil
  · exact List.sorted_insertionSort sorted_before _

/-! ## Lemmas on ordering and rendering -/

theorem sorted_before_iff {a b : LexemeAppearance} :
    sorted_before a b ↔ a.position ≤ b.position := by
  simp [sorted_before, comp]

/-- Every stored span was proposed by some call (or was there before). -/
theorem add_all_subset (calls : List LexemeAppearance) :
    ∀ t : LexemeTable, ∀ la ∈ (add_all calls t).table, la ∈ t.table ∨ la ∈ calls := by
  induction calls with
  | nil => intro t la hla; exact Or.inl hla
  | cons c rest ih =>
    intro t la hla
    rw [add_all_cons] at hla
    rcases ih _ la hla with h | h
    · rcases addLexeme_cases t c.type c.position c.len with ⟨_, e⟩ | ⟨_, _, e⟩ | ⟨_, _, e⟩
      · rw [e] at h; exact Or.inl h
      · rw [e] at h; exact Or.inl h
      · rw [e] at h
        rcases List.mem_append.mp h with h | h
        · exact Or.inl h
        · rw [List.mem_singleton] at h
          subst h
          exact Or.inr (List.mem_cons_self _ _)
    · exact Or.inr (List.mem_cons_of_mem _ h)

theorem size_sub_eq {a b : Nat} (hb : b ≤ a) (ha : a < SIZE_MOD) : size_sub a b = a - b := by
  unfold size_sub
  have h1 : a + SIZE_MOD - b = (a - b) + SIZE_MOD := by omega
  rw [h1, Nat.add_mod_right]
  exact Nat.mod_eq_of_lt (by omega)

theorem substr_ok (text : Text) {pos : Nat} (n : Nat) (h : pos ≤ text.length) :
    substr text pos n = .ok ((text.drop pos).take n) := by
  simp [substr, Nat.not_lt.mpr h]

theorem substr_npos {text : Text} {pos : Nat} (hlen : text.length < SIZE_MOD)
    (h : pos ≤ text.length) : substr text pos npos = .ok (text.drop pos) := by
  rw [substr_ok text npos h]
  congr 1
  apply List.take_of_length_le
  rw [List.length_drop]
  unfold npos
  omega

/-- The loop of the renderer on a chained sequence: nothing throws, nothing wraps, and the
fragments written make up the text from `next_pos` on. -/
theorem print_loop_chained (text : Text) (hlen : text.length < SIZE_MOD)
    (items : List LexemeAppearance) :
    ∀ next_pos : Nat, chained text.length items next_pos →
      (print_loop text items next_pos).1 = .ok () ∧
      no_underflow items next_pos = true ∧
      (fragments (print_loop text items next_pos).2).flatten = text.drop next_pos := by
  induction items with
  | nil =>
    intro next_pos h
    simp only [chained] at h
    simp [print_loop, substr_npos hlen h, no_underflow, fragments]
  | cons item items ih =>
    intro next_pos h
    obtain ⟨h1, h2, h3⟩ := h
    have hadd : size_add item.position item.len = item.position + item.len :=
      size_add_eq (by omega)
    have hsub : size_sub item.position next_pos = item.position - next_pos :=
      size_sub_eq h1 (by omega)
    obtain ⟨ih1, ih2, ih3⟩ := ih _ h3
    have e1 := substr_ok text (item.position - next_pos) (show next_pos ≤ text.length by omega)
    have e2 := substr_ok text item.len (show item.position ≤ text.length by omega)
    have hsplit : text.drop next_pos =
        (text.drop next_pos).take (item.position - next_pos) ++
          ((text.drop item.position).take item.len ++ text.drop (item.position + item.len)) := by
      have a1 := List.take_append_drop (item.position - next_pos) (text.drop next_pos)
      have a2 := List.take_append_drop item.len (text.drop item.position)
      rw [List.drop_drop] at a1 a2
      have a3 : next_pos + (item.position - next_pos) = item.position := by omega
      rw [a3] at a1
      rw [a2, a1]
    simp only [print_loop, hsub, hadd, e1, e2, no_underflow]
    refine ⟨ih1, by simp [h1, ih2], ?_⟩
    simp only [List.cons_append, List.nil_append, fragments, List.flatten_cons]
    conv_rhs => rw [hsplit]
    rw [← ih3]
    rfl

/-- A sorted, well-formed sequence of spans lying in the text is chained. -/
theorem chained_of_sorted (n : Nat) (items : List LexemeAppearance) :
    ∀ next_pos : Nat, items.Sorted sorted_before → well_formed items →
      (∀ la ∈ items, la.position + la.len ≤ n) → next_pos ≤ n →
      (∀ la ∈ items, next_pos ≤ la.position) → chained n items next_pos := by
  induction items with
  | nil => intro next_pos _ _ _ h _; exact h
  | cons a rest ih =>
    intro next_pos hs hw hn _ hlow
    have ha := List.mem_cons_self a rest
    rw [List.sorted_cons] at hs
    obtain ⟨hp, hb⟩ := hw
    rw [List.pairwise_cons] at hp
    refine ⟨hlow a ha, hn a ha, ih _ hs.2 ⟨hp.2, fun la h => hb la (List.mem_cons_of_mem _ h)⟩
      (fun la h => hn la (List.mem_cons_of_mem _ h)) (hn a ha) ?_⟩
    intro la hla
    have h1 := sorted_before_iff.mp (hs.1 la hla)
    have h2 := hp.1 la hla
    have h3 := (hb la (List.mem_cons_of_mem _ hla)).1
    unfold disjoint at h2
    omega

theorem well_formed_perm {v w : List LexemeAppearance} (hp : v.Perm w) (h : well_formed w) :
    well_formed v :=
  ⟨(List.Perm.pairwise_iff (fun hxy => disjoint_symm hxy) hp).mpr h.1,
    fun la hla => h.2 la (hp.subset hla)⟩

/-- Rendering against a well-formed table whose spans lie in the text is lossless. -/
theorem lossless_of_well_formed (text : Text) (hlen : text.length < SIZE_MOD) (t : LexemeTable)
    (hw : well_formed t.table) (hin : ∀ la ∈ t.table, la.position + la.len ≤ text.length) :
    lossless text t := by
  have hperm := std_sort_perm t.table
  have hch : chained text.length (std_sort t.table) 0 :=
    chained_of_sorted text.length (std_sort t.table) 0 (std_sort_sorted t.table)
      (well_formed_perm hperm hw) (fun la hla => hin la (hperm.subset hla)) (Nat.zero_le _)
      (fun _ _ => Nat.zero_le _)
  obtain ⟨h1, h2, h3⟩ := print_loop_chained text hlen (std_sort t.table) 0 hch
  exact ⟨h1, h2, h3⟩

/-! ## Lemmas on the order of offers -/

/-- The table only grows. -/
theorem add_all_mono (calls : List LexemeAppearance) :
    ∀ t : LexemeTable, ∀ la ∈ t.table, la ∈ (add_all calls t).table := by
  induction calls with
  | nil => intro t la hla; exact hla
  | cons c rest ih =>
    intro t la hla
    rw [add_all_cons]
    apply ih
    rcases addLexeme_cases t c.type c.position c.len with ⟨_, e⟩ | ⟨_, _, e⟩ | ⟨_, _, e⟩
    · rw [e]; exact hla
    · rw [e]; exact hla
    · rw [e]; exact List.mem_append_left _ hla

/-- Once a stored span blocks the range `(s, l)`, no span with that range is added. -/
theorem add_all_blocked (s l : Nat) (calls : List LexemeAppearance) :
    ∀ t : LexemeTable, (∃ la ∈ t.table, overlap_free s l la = false) →
      ∀ x ∈ (add_all calls t).table, x.position = s → x.len = l → x ∈ t.table := by
  induction calls with
  | nil => intro t _ x hx _ _; exact hx
  | cons c rest ih =>
    intro t hblock x hx hxs hxl
    rw [add_all_cons] at hx
    obtain ⟨la, hla, hfree⟩ := hblock
    rcases addLexeme_cases t c.type c.position c.len with ⟨_, e⟩ | ⟨_, _, e⟩ | ⟨_, hall, e⟩
    · rw [e] at hx; exact ih t ⟨la, hla, hfree⟩ x hx hxs hxl
    · rw [e] at hx; exact ih t ⟨la, hla, hfree⟩ x hx hxs hxl
    · rw [e] at hx
      have hx1 := ih _ ⟨la, List.mem_append_left _ hla, hfree⟩ x hx hxs hxl
      rcases List.mem_append.mp hx1 with h | h
      · exact h
      · rw [List.mem_singleton] at h
        subst h
        simp only at hxs hxl
        subst hxs hxl
        have := List.all_eq_true.mp hall la hla
        rw [hfree] at this
        exact absurd this (by decide)

/-- A stored span with the candidate's own range blocks it. -/
theorem overlap_free_self (type : LexemeType) {s l : Nat} (hl : 0 < l) (h : s + l < SIZE_MOD) :
    overlap_free s l ⟨type, s, l⟩ = false := by
  simp only [overlap_free, size_add_eq h, Bool.or_eq_false_iff, decide_eq_false_iff_not]
  omega

/-- A failed overlap check means the ranges intersect, when nothing wraps around. -/
theorem not_disjoint_of_blocked {s l : Nat} {la : LexemeAppearance} (type : LexemeType)
    (h : overlap_free s l la = false) (hc : s + l < SIZE_MOD)
    (hla : la.position + la.len < SIZE_MOD) : ¬ disjoint la ⟨type, s, l⟩ := by
  have h1 : ¬ (la.position ≥ s + l ∨ la.position + la.len ≤ s) := by
    rw [← overlap_free_iff hc hla, h]
    decide
  unfold disjoint
  simp only
  omega

theorem type_of_mem_candidates {regex_iterator : RegexIterator} {vb_code : Text}
    {type : LexemeType} {c : LexemeAppearance}
    (h : c ∈ candidates_of regex_iterator vb_code type) : c.type = type := by
  obtain ⟨d, _, hd⟩ := List.mem_map.mp h
  rw [← hd]

theorem priority_order_split (A : LexemeType) :
    priority_order = priority_order.take (priority A) ++ A :: priority_order.drop (priority A + 1)
      ∧ ∀ x ∈ priority_order.take (priority A), priority x < priority A := by
  cases A <;> exact ⟨rfl, by decide⟩

/-- The candidates offered before a candidate of category `A` are of `A` or of an earlier
category. -/
theorem all_candidates_split {regex_iterator : RegexIterator} {vb_code : Text}
    {A : LexemeType} {c : LexemeAppearance}
    (h : c ∈ candidates_of regex_iterator vb_code A) :
    ∃ pre post, all_candidates regex_iterator vb_code = pre ++ c :: post ∧
      ∀ d ∈ pre, priority d.type ≤ priority A := by
  obtain ⟨u, v, huv⟩ := List.append_of_mem h
  obtain ⟨hsplit, hbefore⟩ := priority_order_split A
  refine ⟨(priority_order.take (priority A)).flatMap (candidates_of regex_iterator vb_code) ++ u,
    v ++ (priority_order.drop (priority A + 1)).flatMap (candidates_of regex_iterator vb_code),
    ?_, ?_⟩
  · unfold all_candidates
    conv_lhs => rw [hsplit]
    rw [List.flatMap_append, List.flatMap_cons, huv]
    simp [List.append_assoc]
  · intro d hd
    rcases List.mem_append.mp hd with hd | hd
    · obtain ⟨x, hx, hdx⟩ := List.mem_flatMap.mp hd
      rw [type_of_mem_candidates hdx]
      exact Nat.le_of_lt (hbefore x hx)
    · have : d ∈ candidates_of regex_iterator vb_code A := by
        rw [huv]; exact List.mem_append_left _ hd
      rw [type_of_mem_candidates this]

/-- The fold throws for the first zero-length candidate. -/
theorem offer_all_first_zero (pre post : List LexemeAppearance) (c : LexemeAppearance)
    (t : LexemeTable) (hpre : ∀ d ∈ pre, d.len ≠ 0) (hc : c.len = 0) :
    (offer_all (pre ++ c :: post) t).1 = .error (zero_length_what c.type c.position) := by
  have h := offer_all_find pre t
  rw [find_zero_none.mpr hpre] at h
  simp only at h
  rw [offer_all_append, h]
  simp only [offer_all, hc, addLexeme_zero]

theorem run_result_error {r : Except String Unit × LexemeTable} {what : String}
    (h : r.1 = .error what) : run_result r = .error what := by
  obtain ⟨r1, t⟩ := r
  simp only at h
  subst h
  rfl

/-- Whatever the calls were, the invariant holds as soon as no stored span overflows. -/
theorem add_all_well_formed_of_stored (calls : List LexemeAppearance) :
    ∀ t : LexemeTable, well_formed t.table →
      (∀ la ∈ (add_all calls t).table, la.position + la.len < SIZE_MOD) →
      well_formed (add_all calls t).table := by
  induction calls with
  | nil => intro t ht _; exact ht
  | cons c rest ih =>
    intro t ht hst
    rw [add_all_cons] at hst ⊢
    apply ih _ _ hst
    rcases addLexeme_cases t c.type c.position c.len with ⟨_, e⟩ | ⟨_, _, e⟩ | ⟨_, _, e⟩
    · rw [e]; exact ht
    · rw [e]; exact ht
    · have hc : c.position + c.len < SIZE_MOD := by
        have hmem : (⟨c.type, c.position, c.len⟩ : LexemeAppearance) ∈
            (t.addLexeme c.type c.position c.len).2.table := by
          rw [e]; exact List.mem_append_right _ (List.mem_singleton_self _)
        exact hst _ (add_all_mono rest _ _ hmem)
      exact addLexeme_well_formed c.type hc ht

/-! ## Lemmas on interleaved calls -/

/-- The outcome of `addLexeme` depends on the stored spans only, not on their order. -/
theorem addLexeme_perm {t t' : LexemeTable} (h : t.table.Perm t'.table) (type : LexemeType)
    (position len : Nat) :
    (t.addLexeme type position len).1 = (t'.addLexeme type position len).1 ∧
    (t.addLexeme type position len).2.table.Perm (t'.addLexeme type position len).2.table := by
  have hall : t.table.all (overlap_free position len) =
      t'.table.all (overlap_free position len) := by
    rw [Bool.eq_iff_iff, List.all_eq_true, List.all_eq_true]
    exact ⟨fun hx x hm => hx x (h.mem_iff.mpr hm), fun hx x hm => hx x (h.mem_iff.mp hm)⟩
  rcases addLexeme_cases t type position len with ⟨h0, e⟩ | ⟨hl, ha, e⟩ | ⟨hl, ha, e⟩
  · subst h0
    rw [e, addLexeme_zero]
    exact ⟨rfl, h⟩
  · rw [e, addLexeme_reject hl (hall ▸ ha)]
    exact ⟨rfl, h⟩
  · rw [e, addLexeme_accept hl (hall ▸ ha)]
    exact ⟨rfl, h.append_right _⟩

/-- The stored table is, up to order, the spans accepted so far. -/
theorem run_calls_perm (calls : List Call) :
    ∀ t : LexemeTable,
      (run_calls calls t).2.table.Perm (t.table ++ accepted calls (run_calls calls t).1) := by
  induction calls with
  | nil => intro t; simp [run_calls, accepted]
  | cons c cs ih =>
    intro t
    cases c with
    | addLexeme type position len =>
      have ih1 := ih (t.addLexeme type position len).2
      rcases addLexeme_cases t type position len with ⟨_, e⟩ | ⟨_, _, e⟩ | ⟨_, _, e⟩
      · simp only [run_calls, Call.run, e, accepted] at ih1 ⊢
        exact ih1
      · simp only [run_calls, Call.run, e, accepted] at ih1 ⊢
        exact ih1
      · simp only [run_calls, Call.run, e, accepted] at ih1 ⊢
        simpa using ih1
    | get_ordered_table =>
      have ih1 := ih t.get_ordered_table.2
      simp only [run_calls, Call.run, accepted] at ih1 ⊢
      exact ih1.trans ((std_sort_perm t.table).append_right _)

/-- Leaving out the `get_ordered_table` calls changes no outcome of `addLexeme`. -/
theorem add_returns_without_ordering (calls : List Call) :
    ∀ t t' : LexemeTable, t.table.Perm t'.table →
      add_returns (run_calls calls t).1 = add_returns (run_calls (without_ordering calls) t').1 := by
  induction calls with
  | nil => intro t t' _; rfl
  | cons c cs ih =>
    intro t t' h
    cases c with
    | addLexeme type position len =>
      obtain ⟨h1, h2⟩ := addLexeme_perm h type position len
      simp only [run_calls, Call.run, without_ordering, add_returns, h1]
      rw [ih _ _ h2]
    | get_ordered_table =>
      simp only [run_calls, Call.run, without_ordering, add_returns]
      exact ih _ _ ((std_sort_perm t.table).trans h)

/-! ## Lemmas on the fragments written -/

theorem size_sub_mod_self (p : Nat) : size_sub p (p % SIZE_MOD) = 0 := by
  unfold size_sub SIZE_MOD
  omega

theorem substr_zero {text : Text} {pos : Nat} {f : Text} (h : substr text pos 0 = .ok f) :
    f = [] := by
  unfold substr at h
  split at h
  · cases h
  · simpa using (Except.ok.inj h).symm

/-- The first fragment of the loop is empty when `next_pos` is the position of the first item. -/
theorem print_loop_first_gap (text : Text) (b : LexemeAppearance) (rest : List LexemeAppearance)
    (f : Text)
    (h : (fragments (print_loop text (b :: rest) (b.position % SIZE_MOD)).2)[0]? = some f) :
    f = [] := by
  simp only [print_loop, size_sub_mod_self] at h
  cases h1 : substr text (b.position % SIZE_MOD) 0 with
  | error what => simp [h1, fragments] at h
  | ok gap =>
    have hg := substr_zero h1
    cases h2 : substr text b.position b.len with
    | error what =>
      simp [h1, h2, fragments] at h
      rw [← h, hg]
    | ok lexeme =>
      simp [h1, h2, fragments] at h
      rw [← h, hg]

/-- Behind the first span, the fragment at an even index is the gap before a span; it is empty
when every span starts where the one before it ends. -/
theorem print_loop_adjacent_gaps (text : Text) (items : List LexemeAppearance) :
    ∀ next_pos : Nat, adjacent items →
      ∀ i : Nat, 0 < i → i < items.length → ∀ f : Text,
        (fragments (print_loop text items next_pos).2)[2 * i]? = some f → f = [] := by
  induction items with
  | nil => intro _ _ i _ hi; simp at hi
  | cons item items ih =>
    intro next_pos hch i hi0 hi f hf
    obtain ⟨j, rfl⟩ : ∃ j, i = j + 1 := ⟨i - 1, by omega⟩
    simp only [print_loop] at hf
    cases h1 : substr text next_pos (size_sub item.position next_pos) with
    | error what => simp [h1, fragments] at hf
    | ok gap =>
      cases h2 : substr text item.position item.len with
      | error what =>
        simp only [h1, h2, fragments] at hf
        have hidx : 2 * (j + 1) = 2 * j + 1 + 1 := by omega
        rw [hidx, List.getElem?_cons_succ] at hf
        simp at hf
      | ok lexeme =>
        simp only [h1, h2, List.cons_append, List.nil_append, fragments] at hf
        have hidx : 2 * (j + 1) = 2 * j + 1 + 1 := by omega
        rw [hidx, List.getElem?_cons_succ, List.getElem?_cons_succ] at hf
        cases items with
        | nil => simp at hi
        | cons b rest =>
          by_cases hj : j = 0
          · subst hj
            have hnp : size_add item.position item.len = b.position % SIZE_MOD := by
              rw [hch.1]; rfl
            rw [hnp] at hf
            exact print_loop_first_gap text b rest f hf
          · exact ih _ hch.2 j (by omega) (by simpa using hi) f hf

/-- A table holding a span over the whole text rejects every candidate inside the text. -/
theorem addLexeme_covered {t : LexemeTable} {c : LexemeAppearance} {n : Nat}
    (hn : n < SIZE_MOD) (hmem : c ∈ t.table) (hc0 : c.position = 0) (hcl : c.len = n)
    (type : LexemeType) {position len : Nat} (hl : 0 < len) (hin : position + len ≤ n) :
    t.addLexeme type position len = (.ok false, t) := by
  apply addLexeme_reject (Nat.pos_iff_ne_zero.mp hl)
  rw [List.all_eq_false]
  refine ⟨c, hmem, ?_⟩
  have h1 : size_add position len = position + len :=
    size_add_eq (show position + len < SIZE_MOD by omega)
  have h2 : size_add 0 c.len = c.len := by
    unfold size_add
    rw [Nat.zero_add]
    exact Nat.mod_eq_of_lt (by omega)
  simp only [overlap_free, hc0, h1, h2, Bool.or_eq_true, decide_eq_true_eq]
  omega

/-- Offering candidates inside the text to such a table leaves it unchanged. -/
theorem add_all_covered {t : LexemeTable} {c : LexemeAppearance} {n : Nat}
    (hn : n < SIZE_MOD) (hmem : c ∈ t.table) (hc0 : c.position = 0) (hcl : c.len = n)
    (calls : List LexemeAppearance)
    (hcalls : ∀ d ∈ calls, 0 < d.len ∧ d.position + d.len ≤ n) :
    add_all calls t = t := by
  induction calls with
  | nil => rfl
  | cons d rest ih =>
    rw [add_all_cons,
      addLexeme_covered hn hmem hc0 hcl d.type (hcalls d (List.mem_cons_self _ _)).1
        (hcalls d (List.mem_cons_self _ _)).2]
    exact ih (fun e he => hcalls e (List.mem_cons_of_mem _ he))

theorem mem_priority_order (type : LexemeType) : type ∈ priority_order := by
  cases type <;> decide

/-- The candidates of a run are the matches of each pattern, tagged with its category. -/
theorem mem_all_candidates {regex_iterator : RegexIterator} {vb_code : Text}
    {la : LexemeAppearance} :
    la ∈ all_candidates regex_iterator vb_code ↔
      (la.position, la.len) ∈ regex_iterator (select_regex la.type) vb_code := by
  unfold all_candidates
  rw [List.mem_flatMap]
  constructor
  · rintro ⟨type, _, h⟩
    have hty := type_of_mem_candidates h
    obtain ⟨c, hc, rfl⟩ := List.mem_map.mp h
    exact hc
  · intro h
    exact ⟨la.type, mem_priority_order la.type, List.mem_map.mpr ⟨(la.position, la.len), h, rfl⟩⟩

/-- Rendering against the empty table writes the whole text as one plain fragment. -/
theorem print_empty_table (text : Text) (hlen : text.length < SIZE_MOD) :
    print_highlighted_text text LexemeTable.empty =
      (.ok (), [.escape .RESET, .literal text], LexemeTable.empty) := by
  have h := substr_npos hlen (Nat.zero_le text.length)
  rw [List.drop_zero] at h
  have hs : std_sort [] = [] := rfl
  simp only [print_highlighted_text, LexemeTable.get_ordered_table, LexemeTable.empty, hs,
    print_loop, h]

/-! ## Lemmas on accepted and dropped candidates -/

/-- Spans that do not intersect pass the overlap check, with or without wrap-around. -/
theorem overlap_free_of_disjoint {la c : LexemeAppearance} (h : disjoint la c) :
    overlap_free c.position c.len la = true := by
  have h1 : size_add c.position c.len ≤ c.position + c.len := Nat.mod_le _ _
  have h2 : size_add la.position la.len ≤ la.position + la.len := Nat.mod_le _ _
  simp only [overlap_free, Bool.or_eq_true, decide_eq_true_eq]
  unfold disjoint at h
  omega

/-- The candidates come in the order of their categories. -/
theorem flatMap_candidates_sorted (regex_iterator : RegexIterator) (vb_code : Text)
    (order : List LexemeType) (h : order.Pairwise (fun x y => priority x ≤ priority y)) :
    (order.flatMap (candidates_of regex_iterator vb_code)).Pairwise
      (fun a b => priority a.type ≤ priority b.type) := by
  induction order with
  | nil => exact List.Pairwise.nil
  | cons x rest ih =>
    rw [List.pairwise_cons] at h
    rw [List.flatMap_cons, List.pairwise_append]
    refine ⟨?_, ih h.2, ?_⟩
    · apply List.pairwise_of_forall_mem_list
      intro a ha b hb
      rw [type_of_mem_candidates ha, type_of_mem_candidates hb]
    · intro a ha b hb
      obtain ⟨y, hy, hby⟩ := List.mem_flatMap.mp hb
      rw [type_of_mem_candidates ha, type_of_mem_candidates hby]
      exact h.1 y hy

/-- Whatever is offered before a candidate is of its category or of an earlier one. -/
theorem priority_before {regex_iterator : RegexIterator} {vb_code : Text}
    {pre post : List LexemeAppearance} {c : LexemeAppearance}
    (hsplit : all_candidates regex_iterator vb_code = pre ++ c :: post) :
    ∀ d ∈ pre, priority d.type ≤ priority c.type := by
  have h := flatMap_candidates_sorted regex_iterator vb_code priority_order (by decide)
  unfold all_candidates at hsplit
  rw [hsplit, List.pairwise_append] at h
  exact fun d hd => h.2.2 d hd c (List.mem_cons_self _ _)

/-- What happens to a candidate when it is offered, in a successful run: it is accepted and
stays in the table, or it is rejected because of a span stored before, which stays as well. -/
theorem offer_outcome {regex_iterator : RegexIterator} {vb_code : Text} {table : LexemeTable}
    (hrun : analyze_vb_lexemes regex_iterator vb_code = .ok table)
    {pre post : List LexemeAppearance} {c : LexemeAppearance}
    (hsplit : all_candidates regex_iterator vb_code = pre ++ c :: post) :
    (((add_all pre LexemeTable.empty).addLexeme c.type c.position c.len).1 = .ok true ∧
      c ∈ table.table) ∨
    (((add_all pre LexemeTable.empty).addLexeme c.type c.position c.len).1 = .ok false ∧
      ∃ la ∈ (add_all pre LexemeTable.empty).table,
        la ∈ table.table ∧ la ∈ pre ∧ overlap_free c.position c.len la = false) := by
  obtain ⟨hz, htab⟩ := (analyze_ok_iff regex_iterator vb_code table).mp hrun
  rw [hsplit, add_all_append, add_all_cons] at htab
  have hl : c.len ≠ 0 := hz c (by rw [hsplit]; exact List.mem_append_right _ (List.mem_cons_self _ _))
  rcases addLexeme_cases (add_all pre LexemeTable.empty) c.type c.position c.len with
    ⟨h0, _⟩ | ⟨_, hall, e⟩ | ⟨_, _, e⟩
  · exact absurd h0 hl
  · right
    rw [e] at htab ⊢
    obtain ⟨la, hla, hfree⟩ := List.all_eq_false.mp hall
    refine ⟨rfl, la, hla, ?_, ?_, by simpa using hfree⟩
    · rw [htab]; exact add_all_mono post _ la hla
    · rcases add_all_subset pre LexemeTable.empty la hla with h | h
      · exact absurd h (List.not_mem_nil _)
      · exact h
  · left
    rw [e] at htab ⊢
    refine ⟨rfl, ?_⟩
    rw [htab]
    exact add_all_mono post _ c (List.mem_append_right _ (List.mem_singleton_self _))

/-- Candidates of positive length that intersect neither one another nor a stored span are all
accepted, in order. -/
theorem offer_all_pairwise (cs : List LexemeAppearance) :
    ∀ t : LexemeTable, (∀ c ∈ cs, c.len ≠ 0) → (t.table ++ cs).Pairwise disjoint →
      offer_all cs t = (.ok (), ⟨t.table ++ cs⟩) := by
  induction cs with
  | nil => intro t _ _; simp [offer_all]
  | cons c rest ih =>
    intro t hl hp
    have hall : t.table.all (overlap_free c.position c.len) = true := by
      rw [List.all_eq_true]
      intro la hla
      exact overlap_free_of_disjoint
        ((List.pairwise_append.mp hp).2.2 la hla c (List.mem_cons_self _ _))
    have hacc : t.addLexeme c.type c.position c.len =
        (.ok true, ⟨t.table ++ [⟨c.type, c.position, c.len⟩]⟩) :=
      addLexeme_accept (hl c (List.mem_cons_self _ _)) hall
    simp only [offer_all, hacc]
    have hp1 : ((⟨t.table ++ [c]⟩ : LexemeTable).table ++ rest).Pairwise disjoint := by
      simpa using hp
    rw [ih ⟨t.table ++ [c]⟩ (fun d hd => hl d (List.mem_cons_of_mem _ hd)) hp1]
    simp

/-! ## Lemmas on the uniqueness of the ordering -/

/-- In a well-formed sequence sorted by position every span ends before the later ones start. -/
theorem sorted_ends {v : List LexemeAppearance}
    (hs : v.Pairwise (fun a b => a.position ≤ b.position)) (hw : well_formed v) :
    v.Pairwise (fun a b => a.position + a.len ≤ b.position) := by
  refine (hs.and hw.1).imp_of_mem ?_
  intro a b _ hb h
  have hlen := (hw.2 b hb).1
  have hd := h.2
  unfold disjoint at hd
  omega

/-- Such a sequence is strictly increasing in position. -/
theorem sorted_strict {v : List LexemeAppearance}
    (hs : v.Pairwise (fun a b => a.position ≤ b.position)) (hw : well_formed v) :
    v.Pairwise (fun a b => a.position < b.position) := by
  refine (sorted_ends hs hw).imp_of_mem ?_
  intro a b ha _ h
  have hlen := (hw.2 a ha).1
  omega

theorem std_sort_positions (v : List LexemeAppearance) :
    (std_sort v).Pairwise (fun a b => a.position ≤ b.position) :=
  List.Pairwise.imp (fun hab => sorted_before_iff.mp hab) (std_sort_sorted v)

/-- A well-formed vector has one arrangement sorted by position only. -/
theorem sorted_unique {v w : List LexemeAppearance} (hw : well_formed w) (hp : v.Perm w)
    (hs : v.Pairwise (fun a b => a.position ≤ b.position)) : v = std_sort w := by
  haveI : IsAntisymm LexemeAppearance (fun a b => a.position < b.position) :=
    ⟨fun a b h1 h2 => absurd h1 (Nat.lt_asymm h2)⟩
  have h1 := sorted_strict hs (well_formed_perm hp hw)
  have h2 := sorted_strict (std_sort_positions w) (well_formed_perm (std_sort_perm w) hw)
  exact List.eq_of_perm_of_sorted (hp.trans (std_sort_perm w).symm) h1 h2

/-! ## Lemmas on the structure of the output -/

theorem end_before_cons (start : Nat) (item : LexemeAppearance) (items : List LexemeAppearance)
    (j : Nat) :
    end_before start (item :: items) (j + 1) = end_before (item.position + item.len) items j := by
  cases j <;> simp [end_before]

theorem slice_rest {text : Text} (pos : Nat) :
    slice text pos text.length = text.drop pos := by
  unfold slice
  apply List.take_of_length_le
  rw [List.length_drop]

theorem slice_len (text : Text) (pos len : Nat) :
    slice text pos (pos + len) = (text.drop pos).take len := by
  unfold slice
  rw [Nat.add_sub_cancel_left]

/-- The fragments the loop of the renderer writes on a chained sequence, with their colours. -/
theorem print_loop_fragments (text : Text) (hlen : text.length < SIZE_MOD)
    (items : List LexemeAppearance) :
    ∀ (next_pos : Nat) (color : BackgroundColor), chained text.length items next_pos →
      (annotated_from color (print_loop text items next_pos).2).length = 2 * items.length + 1 ∧
      (∀ (i : Nat) (hi : i < items.length),
        (annotated_from color (print_loop text items next_pos).2)[2 * i]? =
          some (.RESET, slice text (end_before next_pos items i) (items.get ⟨i, hi⟩).position) ∧
        (annotated_from color (print_loop text items next_pos).2)[2 * i + 1]? =
          some (lexeme_color (items.get ⟨i, hi⟩).type,
            slice text (items.get ⟨i, hi⟩).position
              ((items.get ⟨i, hi⟩).position + (items.get ⟨i, hi⟩).len))) ∧
      (annotated_from color (print_loop text items next_pos).2)[2 * items.length]? =
        some (.RESET, slice text (end_before next_pos items items.length) text.length) := by
  induction items with
  | nil =>
    intro next_pos color h
    simp only [chained] at h
    simp only [print_loop, substr_npos hlen h, annotated_from, slice_rest, end_before]
    refine ⟨rfl, fun i hi => absurd hi (Nat.not_lt_zero i), rfl⟩
  | cons item items ih =>
    intro next_pos color h
    obtain ⟨h1, h2, h3⟩ := h
    have hadd : size_add item.position item.len = item.position + item.len :=
      size_add_eq (by omega)
    have hsub : size_sub item.position next_pos = item.position - next_pos :=
      size_sub_eq h1 (by omega)
    have e1 := substr_ok text (item.position - next_pos) (show next_pos ≤ text.length by omega)
    have e2 := substr_ok text item.len (show item.position ≤ text.length by omega)
    obtain ⟨ih1, ih2, ih3⟩ := ih (item.position + item.len) (lexeme_color item.type) h3
    simp only [print_loop, hsub, hadd, e1, e2, List.cons_append, List.nil_append, annotated_from]
    refine ⟨?_, ?_, ?_⟩
    · simp only [List.length_cons, ih1]
      omega
    · intro i hi
      cases i with
      | zero =>
        simp only [Nat.mul_zero, List.getElem?_cons_zero, Nat.zero_add, List.getElem?_cons_succ,
          end_before, List.get, slice_len]
        exact ⟨rfl, trivial⟩
      | succ j =>
        have hj : j < items.length := by simpa using hi
        have hidx : 2 * (j + 1) = 2 * j + 1 + 1 := by omega
        have hidx2 : 2 * (j + 1) + 1 = 2 * j + 1 + 1 + 1 := by omega
        rw [hidx2, hidx, List.getElem?_cons_succ, List.getElem?_cons_succ,
          List.getElem?_cons_succ, List.getElem?_cons_succ, end_before_cons]
        exact ih2 j hj
    · have hidx : 2 * (item :: items).length = 2 * items.length + 1 + 1 := by
        simp only [List.length_cons]; omega
      rw [hidx, List.getElem?_cons_succ, List.getElem?_cons_succ, List.length_cons,
        end_before_cons]
      exact ih3

/-! ## Lemmas on repeated ordering -/

/-- A well-formed vector holds no two spans with the same position. -/
theorem distinct_of_well_formed {v : List LexemeAppearance} (h : well_formed v) :
    v.Pairwise (fun a b => a.position ≠ b.position) := by
  refine h.1.imp_of_mem ?_
  intro a b ha hb hd heq
  have hla := (h.2 a ha).1
  have hlb := (h.2 b hb).1
  unfold disjoint at hd
  omega

/-- Sorting for a second time changes nothing when no two positions are equal. -/
theorem std_sort_fixed_of_distinct {v : List LexemeAppearance}
    (h : v.Pairwise (fun a b => a.position ≠ b.position)) :
    std_sort (std_sort v) = std_sort v := by
  haveI : IsAntisymm LexemeAppearance (fun a b => a.position < b.position) :=
    ⟨fun a b h1 h2 => absurd h1 (Nat.lt_asymm h2)⟩
  have strict : ∀ w : List LexemeAppearance, w.Perm v →
      w.Pairwise (fun a b => a.position ≤ b.position) →
      w.Pairwise (fun a b => a.position < b.position) := by
    intro w hp hs
    have hd : w.Pairwise (fun a b => a.position ≠ b.position) :=
      (List.Perm.pairwise_iff (fun hxy => Ne.symm hxy) hp).mpr h
    exact (hs.and hd).imp (fun hab => Nat.lt_of_le_of_ne hab.1 hab.2)
  have h1 := strict (std_sort v) (std_sort_perm v) (std_sort_positions v)
  have h2 := strict (std_sort (std_sort v)) ((std_sort_perm _).trans (std_sort_perm v))
    (std_sort_positions _)
  exact List.eq_of_perm_of_sorted (std_sort_perm (std_sort v)) h2 h1

/-- Sorting for a second time changes nothing on at most 16 elements, where only the insertion
sort runs. -/
theorem std_sort_fixed_of_small {v : List LexemeAppearance} (h : v.length ≤ 16) :
    std_sort (std_sort v) = std_sort v := by
  have hlen : (std_sort v).length ≤ 16 := by
    rw [(std_sort_perm v).length_eq]; exact h
  rw [std_sort_small _ hlen]
  exact List.Sorted.insertionSort_eq (std_sort_sorted v)

/-! ## Claims -/

/-- C1: after any finite sequence of `addLexeme` calls on an initially empty table, each with
`len > 0` and `position + len` not overflowing `size_t`, entries at distinct indices of the table
never intersect, and the table holds no span twice; the same holds for the table returned by
every successful run of `analyze_vb_lexemes` (whose candidates, lying in the text, do not
overflow). -/
theorem addLexeme_non_overlap (calls : List LexemeAppearance)
    (hcalls : ∀ c ∈ calls, 0 < c.len ∧ c.position + c.len < SIZE_MOD)
    (regex_iterator : RegexIterator) (vb_code : Text) (table : LexemeTable)
    (hcand : ∀ c ∈ all_candidates regex_iterator vb_code, c.position + c.len < SIZE_MOD)
    (hrun : analyze_vb_lexemes regex_iterator vb_code = .ok table) :
    (non_overlapping (add_all calls LexemeTable.empty).table ∧
      (add_all calls LexemeTable.empty).table.Nodup) ∧
    (non_overlapping table.table ∧ table.table.Nodup) := by
  have h1 := add_all_well_formed calls LexemeTable.empty (fun c hc => (hcalls c hc).2)
    well_formed_nil
  have h2 := add_all_well_formed (all_candidates regex_iterator vb_code) LexemeTable.empty hcand
    well_formed_nil
  rw [← ((analyze_ok_iff regex_iterator vb_code table).mp hrun).2] at h2
  exact ⟨⟨non_overlapping_of_pairwise h1.1, nodup_of_well_formed h1⟩,
    ⟨non_overlapping_of_pairwise h2.1, nodup_of_well_formed h2⟩⟩

theorem addLexeme_non_overlap_witness :
    (∀ c ∈ [(⟨.KEYWORD, 0, 3⟩ : LexemeAppearance), ⟨.IDENTIFIER, 0, 3⟩, ⟨.IDENTIFIER, 4, 1⟩],
      0 < c.len ∧ c.position + c.len < SIZE_MOD) ∧
    analyze_vb_lexemes sample_matches "Dim x = 5 ' set x".toList =
      .ok ⟨[⟨.COMMENT, 10, 7⟩, ⟨.NUMBER, 8, 1⟩, ⟨.OPERATOR, 6, 1⟩, ⟨.KEYWORD, 0, 3⟩,
        ⟨.IDENTIFIER, 4, 1⟩]⟩ ∧
    (non_overlapping (add_all [⟨.KEYWORD, 0, 3⟩, ⟨.IDENTIFIER, 0, 3⟩, ⟨.IDENTIFIER, 4, 1⟩]
        LexemeTable.empty).table ∧
      (add_all [⟨.KEYWORD, 0, 3⟩, ⟨.IDENTIFIER, 0, 3⟩, ⟨.IDENTIFIER, 4, 1⟩]
        LexemeTable.empty).table.Nodup) ∧
    (non_overlapping [(⟨.COMMENT, 10, 7⟩ : LexemeAppearance), ⟨.NUMBER, 8, 1⟩, ⟨.OPERATOR, 6, 1⟩,
        ⟨.KEYWORD, 0, 3⟩, ⟨.IDENTIFIER, 4, 1⟩] ∧
      [(⟨.COMMENT, 10, 7⟩ : LexemeAppearance), ⟨.NUMBER, 8, 1⟩, ⟨.OPERATOR, 6, 1⟩,
        ⟨.KEYWORD, 0, 3⟩, ⟨.IDENTIFIER, 4, 1⟩].Nodup) :=
  ⟨by decide, by decide,
    addLexeme_non_overlap [⟨.KEYWORD, 0, 3⟩, ⟨.IDENTIFIER, 0, 3⟩, ⟨.IDENTIFIER, 4, 1⟩]
      (by decide) sample_matches "Dim x = 5 ' set x".toList
      ⟨[⟨.COMMENT, 10, 7⟩, ⟨.NUMBER, 8, 1⟩, ⟨.OPERATOR, 6, 1⟩, ⟨.KEYWORD, 0, 3⟩,
        ⟨.IDENTIFIER, 4, 1⟩]⟩ (by decide) (by decide)⟩

/-- C2, as stated, fails when an addition of the overlap check wraps around, in the direction
"returns true, hence no overlap". With the span `(2^64 - 2, 1)` stored, the call
`addLexeme(NUMBER, 2^64 - 3, 3)` computes `position + len = 0`, finds `la.position >= 0` and
returns true, although the range `[2^64 - 3, 2^64)` contains the stored span. With the span
`(10, 2^64 - 5)` stored, whose end wraps to 5, the call `addLexeme(NUMBER, 12, 1)` finds
`5 <= 12` and returns true, although the stored range contains offset 12. -/
theorem addLexeme_accepts_overlap_on_wrap :
    (LexemeTable.empty.addLexeme .KEYWORD 18446744073709551614 1).2 =
        ⟨[⟨.KEYWORD, 18446744073709551614, 1⟩]⟩ ∧
    0 < 3 ∧
    ((LexemeTable.empty.addLexeme .KEYWORD 18446744073709551614 1).2.addLexeme
        .NUMBER 18446744073709551613 3).1 = .ok true ∧
    ¬ (∀ la ∈ (LexemeTable.empty.addLexeme .KEYWORD 18446744073709551614 1).2.table,
        la.position ≥ 18446744073709551613 + 3 ∨ la.position + la.len ≤ 18446744073709551613) ∧
    (LexemeTable.empty.addLexeme .KEYWORD 10 18446744073709551611).2 =
        ⟨[⟨.KEYWORD, 10, 18446744073709551611⟩]⟩ ∧
    0 < 1 ∧ 12 + 1 < SIZE_MOD ∧
    ((LexemeTable.empty.addLexeme .KEYWORD 10 18446744073709551611).2.addLexeme
        .NUMBER 12 1).1 = .ok true ∧
    ¬ (∀ la ∈ (LexemeTable.empty.addLexeme .KEYWORD 10 18446744073709551611).2.table,
        la.position ≥ 12 + 1 ∨ la.position + la.len ≤ 12) := by
  decide

/-- C2 (amended): for every table, type, position and `len > 0`, `addLexeme` raises no error and
returns a boolean; when it returns true the new table is the old one with exactly the span
`{type, position, len}` appended, when it returns false the table is unchanged. Whenever every
stored span `la` satisfies `la.position >= position + len` or
`la.position + la.len <= position` (the candidate overlaps no stored span), it returns true.
Conversely, provided `position + len` and every stored `la.position + la.len` are below `2^64`,
when it returns true every stored span satisfies that condition. -/
theorem addLexeme_postcondition (t : LexemeTable) (type : LexemeType) (position len : Nat)
    (hlen : 0 < len) :
    (∃ b : Bool, (t.addLexeme type position len).1 = .ok b ∧
      (b = true → (t.addLexeme type position len).2 = ⟨t.table ++ [⟨type, position, len⟩]⟩) ∧
      (b = false → (t.addLexeme type position len).2 = t)) ∧
    ((∀ la ∈ t.table, la.position ≥ position + len ∨ la.position + la.len ≤ position) →
      (t.addLexeme type position len).1 = .ok true) ∧
    (position + len < SIZE_MOD → (∀ la ∈ t.table, la.position + la.len < SIZE_MOD) →
      (t.addLexeme type position len).1 = .ok true →
        ∀ la ∈ t.table, la.position ≥ position + len ∨ la.position + la.len ≤ position) := by
  have hl : len ≠ 0 := Nat.pos_iff_ne_zero.mp hlen
  have hfree : (∀ la ∈ t.table, la.position ≥ position + len ∨ la.position + la.len ≤ position) →
      t.table.all (overlap_free position len) = true := by
    intro hdis
    rw [List.all_eq_true]
    intro la hla
    have hd : disjoint la ⟨type, position, len⟩ := by
      rcases hdis la hla with h | h
      · exact Or.inr h
      · exact Or.inl h
    exact overlap_free_of_disjoint hd
  rcases addLexeme_cases t type position len with ⟨h0, _⟩ | ⟨_, hall, h⟩ | ⟨_, hall, h⟩
  · exact absurd h0 hl
  · refine ⟨⟨false, by rw [h], fun hb => absurd hb (by decide), fun _ => by rw [h]⟩, ?_, ?_⟩
    · intro hdis
      rw [hfree hdis] at hall
      exact absurd hall (by decide)
    · intro _ _ hb
      rw [h] at hb
      exact absurd (Except.ok.inj hb) (by decide)
  · refine ⟨⟨true, by rw [h], fun _ => by rw [h], fun hb => absurd hb (by decide)⟩, ?_, ?_⟩
    · intro _
      rw [h]
    · intro hc ht _ la hla
      exact (overlap_free_iff hc (ht la hla)).mp (List.all_eq_true.mp hall la hla)

theorem addLexeme_postcondition_witness :
    0 < 1 ∧
    (∀ la ∈ [(⟨.KEYWORD, 0, 3⟩ : LexemeAppearance)],
      la.position ≥ 4 + 1 ∨ la.position + la.len ≤ 4) ∧
    (LexemeTable.addLexeme ⟨[⟨.KEYWORD, 0, 3⟩]⟩ .IDENTIFIER 4 1).1 = .ok true ∧
    4 + 1 < SIZE_MOD ∧
    (∀ la ∈ [(⟨.KEYWORD, 0, 3⟩ : LexemeAppearance)], la.position + la.len < SIZE_MOD) ∧
    (∀ la ∈ [(⟨.KEYWORD, 0, 3⟩ : LexemeAppearance)],
      la.position ≥ 4 + 1 ∨ la.position + la.len ≤ 4) ∧
    (∀ la ∈ [(⟨.KEYWORD, 5, 1⟩ : LexemeAppearance)],
      la.position ≥ 18446744073709551615 + 2 ∨ la.position + la.len ≤ 18446744073709551615) ∧
    (LexemeTable.addLexeme ⟨[⟨.KEYWORD, 5, 1⟩]⟩ .NUMBER 18446744073709551615 2).1 =
      .ok true :=
  ⟨by decide, by decide,
    (addLexeme_postcondition ⟨[⟨.KEYWORD, 0, 3⟩]⟩ .IDENTIFIER 4 1 (by decide)).2.1 (by decide),
    by decide, by decide,
    (addLexeme_postcondition ⟨[⟨.KEYWORD, 0, 3⟩]⟩ .IDENTIFIER 4 1 (by decide)).2.2
      (by decide) (by decide) (by decide),
    by decide,
    (addLexeme_postcondition ⟨[⟨.KEYWORD, 5, 1⟩]⟩ .NUMBER 18446744073709551615 2
      (by decide)).2.1 (by decide)⟩

/-- C3: for every text (a `std::string`, so shorter than `2^64`) and every table reached from
the empty one by `addLexeme` calls, all of whose spans satisfy
`position + len <= length of text`, in particular the table produced by classifying the text,
`print_highlighted_text` does not fail (no `substr` throws, `item.position - next_pos` never
wraps) and the literal fragments it writes, concatenated in emission order, are the original
text. -/
theorem print_highlighted_text_round_trip (text : Text) (hlen : text.length < SIZE_MOD)
    (calls : List LexemeAppearance)
    (hcalls : ∀ la ∈ (add_all calls LexemeTable.empty).table,
      la.position + la.len ≤ text.length)
    (regex_iterator : RegexIterator) (table : LexemeTable)
    (hrun : analyze_vb_lexemes regex_iterator text = .ok table)
    (htable : ∀ la ∈ table.table, la.position + la.len ≤ text.length) :
    lossless text (add_all calls LexemeTable.empty) ∧ lossless text table := by
  have key : ∀ cs : List LexemeAppearance,
      (∀ la ∈ (add_all cs LexemeTable.empty).table, la.position + la.len ≤ text.length) →
      lossless text (add_all cs LexemeTable.empty) := by
    intro cs hcs
    exact lossless_of_well_formed text hlen _
      (add_all_well_formed_of_stored cs LexemeTable.empty well_formed_nil
        (fun la hla => Nat.lt_of_le_of_lt (hcs la hla) hlen)) hcs
  refine ⟨key calls hcalls, ?_⟩
  have htab := ((analyze_ok_iff regex_iterator text table).mp hrun).2
  rw [htab] at htable ⊢
  exact key _ htable

theorem print_highlighted_text_round_trip_witness :
    "Dim x = 5 ' set x".toList.length < SIZE_MOD ∧
    (∀ la ∈ (add_all [⟨.IDENTIFIER, 4, 1⟩, ⟨.KEYWORD, 0, 3⟩, ⟨.IDENTIFIER, 0, 3⟩,
        ⟨.COMMENT, 5, 0⟩, ⟨.NUMBER, 2, 100⟩] LexemeTable.empty).table,
      la.position + la.len ≤ "Dim x = 5 ' set x".toList.length) ∧
    analyze_vb_lexemes sample_matches "Dim x = 5 ' set x".toList =
      .ok ⟨[⟨.COMMENT, 10, 7⟩, ⟨.NUMBER, 8, 1⟩, ⟨.OPERATOR, 6, 1⟩, ⟨.KEYWORD, 0, 3⟩,
        ⟨.IDENTIFIER, 4, 1⟩]⟩ ∧
    (∀ la ∈ [(⟨.COMMENT, 10, 7⟩ : LexemeAppearance), ⟨.NUMBER, 8, 1⟩, ⟨.OPERATOR, 6, 1⟩,
        ⟨.KEYWORD, 0, 3⟩, ⟨.IDENTIFIER, 4, 1⟩],
      la.position + la.len ≤ "Dim x = 5 ' set x".toList.length) ∧
    lossless "Dim x = 5 ' set x".toList
      (add_all [⟨.IDENTIFIER, 4, 1⟩, ⟨.KEYWORD, 0, 3⟩, ⟨.IDENTIFIER, 0, 3⟩,
        ⟨.COMMENT, 5, 0⟩, ⟨.NUMBER, 2, 100⟩] LexemeTable.empty) ∧
    lossless "Dim x = 5 ' set x".toList
      ⟨[⟨.COMMENT, 10, 7⟩, ⟨.NUMBER, 8, 1⟩, ⟨.OPERATOR, 6, 1⟩, ⟨.KEYWORD, 0, 3⟩,
        ⟨.IDENTIFIER, 4, 1⟩]⟩ :=
  ⟨by decide, by decide, by decide, by decide,
    print_highlighted_text_round_trip "Dim x = 5 ' set x".toList (by decide)
      [⟨.IDENTIFIER, 4, 1⟩, ⟨.KEYWORD, 0, 3⟩, ⟨.IDENTIFIER, 0, 3⟩, ⟨.COMMENT, 5, 0⟩,
        ⟨.NUMBER, 2, 100⟩] (by decide) sample_matches
      ⟨[⟨.COMMENT, 10, 7⟩, ⟨.NUMBER, 8, 1⟩, ⟨.OPERATOR, 6, 1⟩, ⟨.KEYWORD, 0, 3⟩,
        ⟨.IDENTIFIER, 4, 1⟩]⟩ (by decide) (by decide)⟩

/-- C4, as stated, fails when an earlier category already covers the range: on the text
`' Dim x` the Keyword and the Identifier matcher both produce the range `(2, 3)`, Keyword is
before Identifier, and the final table holds the Comment span `(0, 7)` alone, so it does not
contain the Keyword span. -/
theorem priority_span_absent_under_comment :
    priority .KEYWORD < priority .IDENTIFIER ∧ 0 < 3 ∧
    (2, 3) ∈ sample_matches (select_regex .KEYWORD) "' Dim x".toList ∧
    (2, 3) ∈ sample_matches (select_regex .IDENTIFIER) "' Dim x".toList ∧
    analyze_vb_lexemes sample_matches "' Dim x".toList = .ok ⟨[⟨.COMMENT, 0, 7⟩]⟩ ∧
    (⟨.KEYWORD, 2, 3⟩ : LexemeAppearance) ∉ [(⟨.COMMENT, 0, 7⟩ : LexemeAppearance)] := by
  decide

/-- C4 (amended): for every text, every pair of categories `A` before `B` in the priority order
and every range `(start, length)` with `length > 0` that both the matcher of `A` and the matcher
of `B` produce (candidates lie in the text, so no end overflows), the table returned by a
successful run of `analyze_vb_lexemes` does not contain the span `(B, start, length)`, and it
contains the span `(A, start, length)` unless it contains a span of category `A` or of an
earlier category that intersects the range. -/
theorem priority_determinism (regex_iterator : RegexIterator) (text : Text)
    (table : LexemeTable) (A B : LexemeType) (start length : Nat)
    (hrun : analyze_vb_lexemes regex_iterator text = .ok table)
    (hcand : ∀ c ∈ all_candidates regex_iterator text, c.position + c.len < SIZE_MOD)
    (hAB : priority A < priority B) (hlen : 0 < length)
    (hA : (start, length) ∈ regex_iterator (select_regex A) text)
    (_hB : (start, length) ∈ regex_iterator (select_regex B) text) :
    (⟨B, start, length⟩ : LexemeAppearance) ∉ table.table ∧
    ((⟨A, start, length⟩ : LexemeAppearance) ∈ table.table ∨
      ∃ la ∈ table.table, priority la.type ≤ priority A ∧ ¬ disjoint la ⟨A, start, length⟩) := by
  have hcA : (⟨A, start, length⟩ : LexemeAppearance) ∈ candidates_of regex_iterator text A :=
    List.mem_map.mpr ⟨(start, length), hA, rfl⟩
  obtain ⟨pre, post, hsplit, hpre⟩ := all_candidates_split hcA
  have htab := ((analyze_ok_iff regex_iterator text table).mp hrun).2
  rw [hsplit, add_all_append, add_all_cons] at htab
  simp only at htab
  have hmemA : (⟨A, start, length⟩ : LexemeAppearance) ∈ all_candidates regex_iterator text := by
    rw [hsplit]; exact List.mem_append_right _ (List.mem_cons_self _ _)
  have hover : start + length < SIZE_MOD := hcand _ hmemA
  have hl : length ≠ 0 := Nat.pos_iff_ne_zero.mp hlen
  -- the table before the candidate of `A` is offered
  have hT1 : ∀ la ∈ (add_all pre LexemeTable.empty).table, la ∈ pre := by
    intro la hla
    rcases add_all_subset pre LexemeTable.empty la hla with h | h
    · exact absurd h (List.not_mem_nil _)
    · exact h
  have hpreC : ∀ la ∈ pre, la.position + la.len < SIZE_MOD := fun la hla =>
    hcand la (by rw [hsplit]; exact List.mem_append_left _ hla)
  rcases addLexeme_cases (add_all pre LexemeTable.empty) A start length with
    ⟨h0, _⟩ | ⟨_, hall, e⟩ | ⟨_, _, e⟩
  · exact absurd h0 hl
  · -- rejected: a stored span blocks the range
    rw [e] at htab
    simp only at htab
    obtain ⟨la, hla, hfree⟩ : ∃ la ∈ (add_all pre LexemeTable.empty).table,
        overlap_free start length la = false := by
      by_contra hno
      have : (add_all pre LexemeTable.empty).table.all (overlap_free start length) = true := by
        rw [List.all_eq_true]
        intro x hx
        by_contra hx1
        exact hno ⟨x, hx, by simpa using hx1⟩
      rw [this] at hall
      exact absurd hall (by decide)
    constructor
    · intro hBmem
      rw [htab] at hBmem
      have := add_all_blocked start length post _ ⟨la, hla, hfree⟩ _ hBmem rfl rfl
      have hp := hpre _ (hT1 _ this)
      simp only at hp
      omega
    · right
      refine ⟨la, ?_, hpre la (hT1 la hla), ?_⟩
      · rw [htab]; exact add_all_mono post _ la hla
      · exact not_disjoint_of_blocked A hfree hover (hpreC la (hT1 la hla))
  · -- accepted: the span of `A` is stored and blocks the range from now on
    rw [e] at htab
    simp only at htab
    have hin : (⟨A, start, length⟩ : LexemeAppearance) ∈
        ((add_all pre LexemeTable.empty).table ++ [⟨A, start, length⟩]) :=
      List.mem_append_right _ (List.mem_singleton_self _)
    constructor
    · intro hBmem
      rw [htab] at hBmem
      have := add_all_blocked start length post
        ⟨(add_all pre LexemeTable.empty).table ++ [⟨A, start, length⟩]⟩
        ⟨_, hin, overlap_free_self A hlen hover⟩ _ hBmem rfl rfl
      rcases List.mem_append.mp this with h | h
      · have hp := hpre _ (hT1 _ h)
        simp only at hp
        omega
      · rw [List.mem_singleton] at h
        have hty := congrArg LexemeAppearance.type h
        simp only at hty
        rw [hty] at hAB
        exact absurd hAB (Nat.lt_irrefl _)
    · left
      rw [htab]
      exact add_all_mono post _ _ hin

theorem priority_determinism_witness :
    analyze_vb_lexemes sample_matches "Dim x = 5 ' set x".toList =
      .ok ⟨[⟨.COMMENT, 10, 7⟩, ⟨.NUMBER, 8, 1⟩, ⟨.OPERATOR, 6, 1⟩, ⟨.KEYWORD, 0, 3⟩,
        ⟨.IDENTIFIER, 4, 1⟩]⟩ ∧
    (∀ c ∈ all_candidates sample_matches "Dim x = 5 ' set x".toList,
      c.position + c.len < SIZE_MOD) ∧
    priority .KEYWORD < priority .IDENTIFIER ∧ 0 < 3 ∧
    (0, 3) ∈ sample_matches (select_regex .KEYWORD) "Dim x = 5 ' set x".toList ∧
    (0, 3) ∈ sample_matches (select_regex .IDENTIFIER) "Dim x = 5 ' set x".toList ∧
    ((⟨.IDENTIFIER, 0, 3⟩ : LexemeAppearance) ∉
        [(⟨.COMMENT, 10, 7⟩ : LexemeAppearance), ⟨.NUMBER, 8, 1⟩, ⟨.OPERATOR, 6, 1⟩,
          ⟨.KEYWORD, 0, 3⟩, ⟨.IDENTIFIER, 4, 1⟩] ∧
      ((⟨.KEYWORD, 0, 3⟩ : LexemeAppearance) ∈
          [(⟨.COMMENT, 10, 7⟩ : LexemeAppearance), ⟨.NUMBER, 8, 1⟩, ⟨.OPERATOR, 6, 1⟩,
            ⟨.KEYWORD, 0, 3⟩, ⟨.IDENTIFIER, 4, 1⟩] ∨
        ∃ la ∈ [(⟨.COMMENT, 10, 7⟩ : LexemeAppearance), ⟨.NUMBER, 8, 1⟩, ⟨.OPERATOR, 6, 1⟩,
            ⟨.KEYWORD, 0, 3⟩, ⟨.IDENTIFIER, 4, 1⟩],
          priority la.type ≤ priority .KEYWORD ∧ ¬ disjoint la ⟨.KEYWORD, 0, 3⟩)) :=
  ⟨by decide, by decide, by decide, by decide, by decide, by decide,
    priority_determinism sample_matches "Dim x = 5 ' set x".toList
      ⟨[⟨.COMMENT, 10, 7⟩, ⟨.NUMBER, 8, 1⟩, ⟨.OPERATOR, 6, 1⟩, ⟨.KEYWORD, 0, 3⟩,
        ⟨.IDENTIFIER, 4, 1⟩]⟩ .KEYWORD .IDENTIFIER 0 3
      (by decide) (by decide) (by decide) (by decide) (by decide) (by decide)⟩

/-- C5: `analyze_vb_lexemes` is a priority-ordered fold. With the eight matchers given as
functions from the text to a list of candidates, its result equals the one obtained from the
empty table by one `addLexeme` call per candidate over the concatenation of the candidate lists
in the order DIRECTIVE, COMMENT, STR_CHAR, NUMBER, OPERATOR, KEYWORD, IDENTIFIER, DELIMITER, each
list in the order of its matcher, each candidate tagged with its category, and each matcher's
list occurring exactly once. -/
theorem analyze_vb_lexemes_priority_fold (regex_iterator : RegexIterator) (vb_code : Text) :
    analyze_vb_lexemes regex_iterator vb_code = classify_by_fold regex_iterator vb_code ∧
    all_candidates regex_iterator vb_code =
      (regex_iterator .REG_DIRECTIVE vb_code).map (fun c => ⟨.DIRECTIVE, c.1, c.2⟩) ++
      ((regex_iterator .REG_COMMENT vb_code).map (fun c => ⟨.COMMENT, c.1, c.2⟩) ++
      ((regex_iterator .REG_STR_CHAR vb_code).map (fun c => ⟨.STR_CHAR, c.1, c.2⟩) ++
      ((regex_iterator .REG_NUMBER vb_code).map (fun c => ⟨.NUMBER, c.1, c.2⟩) ++
      ((regex_iterator .REG_OPERATOR vb_code).map (fun c => ⟨.OPERATOR, c.1, c.2⟩) ++
      ((regex_iterator .REG_KEYWORD vb_code).map (fun c => ⟨.KEYWORD, c.1, c.2⟩) ++
      ((regex_iterator .REG_IDENTIFIER vb_code).map (fun c => ⟨.IDENTIFIER, c.1, c.2⟩) ++
      (regex_iterator .REG_DELIMITER vb_code).map (fun c => ⟨.DELIMITER, c.1, c.2⟩))))))) := by
  refine ⟨analyze_eq_fold regex_iterator vb_code, ?_⟩
  simp [all_candidates, priority_order, candidates_of, select_regex]

/-- C6: a zero-length candidate is an error at the table. For every table, type and position,
`addLexeme(type, position, 0)` throws instead of returning, the message is
`Length of lexeme type <type> is 0 (pos <position>).` with the integer value of the type and the
position, and the table is left unchanged; and `addLexeme` never throws when `len > 0`. -/
theorem addLexeme_zero_length (t : LexemeTable) (type : LexemeType) (position len : Nat) :
    t.addLexeme type position 0 =
      (.error ("Length of lexeme type " ++ toString type.toNat ++ " is 0 (pos " ++
        toString position ++ ")."), t) ∧
    (0 < len → ∃ b : Bool, (t.addLexeme type position len).1 = .ok b) := by
  refine ⟨addLexeme_zero t type position, fun hlen => ?_⟩
  rcases addLexeme_cases t type position len with ⟨h0, _⟩ | ⟨_, _, h⟩ | ⟨_, _, h⟩
  · omega
  · exact ⟨false, by rw [h]⟩
  · exact ⟨true, by rw [h]⟩

theorem addLexeme_zero_length_witness :
    LexemeTable.addLexeme ⟨[⟨.KEYWORD, 0, 3⟩]⟩ .IDENTIFIER 1 0 =
      (.error "Length of lexeme type 6 is 0 (pos 1).", ⟨[⟨.KEYWORD, 0, 3⟩]⟩) ∧
    0 < 2 ∧
    ∃ b : Bool, (LexemeTable.addLexeme ⟨[⟨.KEYWORD, 0, 3⟩]⟩ .IDENTIFIER 1 2).1 = .ok b :=
  ⟨(addLexeme_zero_length ⟨[⟨.KEYWORD, 0, 3⟩]⟩ .IDENTIFIER 1 2).1, by decide,
    (addLexeme_zero_length ⟨[⟨.KEYWORD, 0, 3⟩]⟩ .IDENTIFIER 1 2).2 (by decide)⟩

/-- C7: `analyze_vb_lexemes` throws, returning no table, if and only if some candidate of some
matcher has length 0; the exception is the one of the first such candidate in priority and
production order, wherever its position lies; and when no candidate has length 0 the run returns
a table. -/
theorem analyze_vb_lexemes_zero_length (regex_iterator : RegexIterator) (vb_code : Text) :
    ((∃ what, analyze_vb_lexemes regex_iterator vb_code = .error what) ↔
      ∃ c ∈ all_candidates regex_iterator vb_code, c.len = 0) ∧
    (∀ pre c post, all_candidates regex_iterator vb_code = pre ++ c :: post →
      (∀ d ∈ pre, d.len ≠ 0) → c.len = 0 →
      analyze_vb_lexemes regex_iterator vb_code =
        .error (zero_length_what c.type c.position)) ∧
    ((∀ c ∈ all_candidates regex_iterator vb_code, c.len ≠ 0) →
      ∃ table, analyze_vb_lexemes regex_iterator vb_code = .ok table) := by
  have hok : (∀ c ∈ all_candidates regex_iterator vb_code, c.len ≠ 0) →
      ∃ table, analyze_vb_lexemes regex_iterator vb_code = .ok table := fun h =>
    ⟨_, (analyze_ok_iff regex_iterator vb_code _).mpr ⟨h, rfl⟩⟩
  refine ⟨⟨?_, ?_⟩, ?_, hok⟩
  · rintro ⟨what, hw⟩
    by_contra hno
    obtain ⟨table, ht⟩ := hok (fun c hc h0 => hno ⟨c, hc, h0⟩)
    rw [ht] at hw
    exact absurd hw (by simp)
  · rintro ⟨c, hc, h0⟩
    cases hr : analyze_vb_lexemes regex_iterator vb_code with
    | error what => exact ⟨what, rfl⟩
    | ok table =>
      exact absurd h0 (((analyze_ok_iff regex_iterator vb_code table).mp hr).1 c hc)
  · intro pre c post hsplit hpre hc
    rw [analyze_eq_fold, hsplit]
    exact run_result_error (offer_all_first_zero pre post c LexemeTable.empty hpre hc)

theorem analyze_vb_lexemes_zero_length_witness :
    all_candidates faulty_matches "' Dim x".toList =
      [⟨.COMMENT, 0, 7⟩] ++ ⟨.KEYWORD, 2, 0⟩ :: [⟨.KEYWORD, 9, 0⟩, ⟨.IDENTIFIER, 3, 0⟩] ∧
    (∀ d ∈ [(⟨.COMMENT, 0, 7⟩ : LexemeAppearance)], d.len ≠ 0) ∧
    analyze_vb_lexemes faulty_matches "' Dim x".toList =
      .error "Length of lexeme type 1 is 0 (pos 2)." ∧
    (∀ c ∈ all_candidates sample_matches "' Dim x".toList, c.len ≠ 0) ∧
    ∃ table, analyze_vb_lexemes sample_matches "' Dim x".toList = .ok table :=
  ⟨by decide, by decide,
    (analyze_vb_lexemes_zero_length faulty_matches "' Dim x".toList).2.1
      [⟨.COMMENT, 0, 7⟩] ⟨.KEYWORD, 2, 0⟩ [⟨.KEYWORD, 9, 0⟩, ⟨.IDENTIFIER, 3, 0⟩]
      (by decide) (by decide) (by decide),
    by decide,
    (analyze_vb_lexemes_zero_length sample_matches "' Dim x".toList).2.2 (by decide)⟩

/-- C8: after any interleaving of `addLexeme` and `get_ordered_table` calls on an initially
empty table, `get_ordered_table` returns a permutation of exactly the spans for which
`addLexeme` returned true so far, sorted ascending by position; and the outcomes of the
`addLexeme` calls are the same as in the sequence with every `get_ordered_table` call left
out. -/
theorem get_ordered_table_sorted_accepted (calls : List Call) :
    ((run_calls calls LexemeTable.empty).2.get_ordered_table.1).Perm
        (accepted calls (run_calls calls LexemeTable.empty).1) ∧
    ((run_calls calls LexemeTable.empty).2.get_ordered_table.1).Pairwise
        (fun a b => a.position ≤ b.position) ∧
    add_returns (run_calls calls LexemeTable.empty).1 =
      add_returns (run_calls (without_ordering calls) LexemeTable.empty).1 := by
  refine ⟨?_, ?_, add_returns_without_ordering calls _ _ (List.Perm.refl _)⟩
  · have h := run_calls_perm calls LexemeTable.empty
    simp only [LexemeTable.empty, List.nil_append] at h
    exact (std_sort_perm _).trans h
  · have h := std_sort_sorted (run_calls calls LexemeTable.empty).2.table
    exact List.Pairwise.imp (fun hab => sorted_before_iff.mp hab) h

/-- C9, as stated, fails on a table with 17 entries of equal position, which `addLexeme` builds
through wrap-around: all of `tied_calls` are accepted, the first `get_ordered_table` call
returns the entries in the order 8, 16, 15, .., 9, 0, 7, 6, .., 1 of their insertion, and a
second call, with no `addLexeme` call in between, returns them in the order 9, 1, 2, .., 7, 0,
8, 10, 11, .., 16 and leaves another stored table: `std::sort` partitions a range of more than
16 elements and exchanges elements that compare equivalent. -/
theorem get_ordered_table_reorders_ties :
    (∀ c ∈ tied_calls, c.position < SIZE_MOD ∧ 0 < c.len ∧ c.len < SIZE_MOD) ∧
    (add_all tied_calls LexemeTable.empty).table = tied_calls ∧
    (add_all tied_calls LexemeTable.empty).get_ordered_table.1 =
      [⟨.NUMBER, 100, 18446744073709551524⟩, ⟨.NUMBER, 100, 18446744073709551532⟩,
        ⟨.NUMBER, 100, 18446744073709551531⟩, ⟨.NUMBER, 100, 18446744073709551530⟩,
        ⟨.NUMBER, 100, 18446744073709551529⟩, ⟨.NUMBER, 100, 18446744073709551528⟩,
        ⟨.NUMBER, 100, 18446744073709551527⟩, ⟨.NUMBER, 100, 18446744073709551526⟩,
        ⟨.NUMBER, 100, 18446744073709551525⟩, ⟨.NUMBER, 100, 18446744073709551516⟩,
        ⟨.NUMBER, 100, 18446744073709551523⟩, ⟨.NUMBER, 100, 18446744073709551522⟩,
        ⟨.NUMBER, 100, 18446744073709551521⟩, ⟨.NUMBER, 100, 18446744073709551520⟩,
        ⟨.NUMBER, 100, 18446744073709551519⟩, ⟨.NUMBER, 100, 18446744073709551518⟩,
        ⟨.NUMBER, 100, 18446744073709551517⟩] ∧
    (add_all tied_calls LexemeTable.empty).get_ordered_table.2.get_ordered_table.1 =
      [⟨.NUMBER, 100, 18446744073709551525⟩, ⟨.NUMBER, 100, 18446744073709551517⟩,
        ⟨.NUMBER, 100, 18446744073709551518⟩, ⟨.NUMBER, 100, 18446744073709551519⟩,
        ⟨.NUMBER, 100, 18446744073709551520⟩, ⟨.NUMBER, 100, 18446744073709551521⟩,
        ⟨.NUMBER, 100, 18446744073709551522⟩, ⟨.NUMBER, 100, 18446744073709551523⟩,
        ⟨.NUMBER, 100, 18446744073709551516⟩, ⟨.NUMBER, 100, 18446744073709551524⟩,
        ⟨.NUMBER, 100, 18446744073709551526⟩, ⟨.NUMBER, 100, 18446744073709551527⟩,
        ⟨.NUMBER, 100, 18446744073709551528⟩, ⟨.NUMBER, 100, 18446744073709551529⟩,
        ⟨.NUMBER, 100, 18446744073709551530⟩, ⟨.NUMBER, 100, 18446744073709551531⟩,
        ⟨.NUMBER, 100, 18446744073709551532⟩] ∧
    (add_all tied_calls LexemeTable.empty).get_ordered_table.2.get_ordered_table.1 ≠
      (add_all tied_calls LexemeTable.empty).get_ordered_table.1 ∧
    (add_all tied_calls LexemeTable.empty).get_ordered_table.2.get_ordered_table.2 ≠
      (add_all tied_calls LexemeTable.empty).get_ordered_table.2 := by
  decide

/-- C9 (amended): for every table reached from the empty one by `addLexeme` calls in which no
stored span has `position + len` overflowing `size_t`, or which holds no two entries with the
same position, or which holds at most 16 entries, a `get_ordered_table` call made after the
first one, with any number `n` of further `get_ordered_table` calls and no `addLexeme` call in
between, returns the same sequence and leaves the same stored table as the first call. Without
overflow no two entries have the same position, and then the sorted sequence is unique; on at
most 16 entries `std::sort` runs only its insertion sort, which leaves a sorted range as it
is. -/
theorem get_ordered_table_idempotent (calls : List LexemeAppearance) (n : Nat)
    (hties : (∀ la ∈ (add_all calls LexemeTable.empty).table, la.position + la.len < SIZE_MOD) ∨
      (add_all calls LexemeTable.empty).table.Pairwise (fun a b => a.position ≠ b.position) ∨
      (add_all calls LexemeTable.empty).table.length ≤ 16) :
    (Nat.iterate (fun s => s.get_ordered_table.2) n
      (add_all calls LexemeTable.empty).get_ordered_table.2).get_ordered_table =
      (add_all calls LexemeTable.empty).get_ordered_table := by
  have hfix : std_sort (std_sort (add_all calls LexemeTable.empty).table) =
      std_sort (add_all calls LexemeTable.empty).table := by
    rcases hties with h | h | h
    · exact std_sort_fixed_of_distinct (distinct_of_well_formed
        (add_all_well_formed_of_stored calls LexemeTable.empty well_formed_nil h))
    · exact std_sort_fixed_of_distinct h
    · exact std_sort_fixed_of_small h
  have htwice : (add_all calls LexemeTable.empty).get_ordered_table.2.get_ordered_table =
      (add_all calls LexemeTable.empty).get_ordered_table := by
    simp only [LexemeTable.get_ordered_table, hfix]
  rw [Function.iterate_fixed]
  · exact htwice
  · exact congrArg Prod.snd htwice

theorem get_ordered_table_idempotent_witness :
    (∀ la ∈ (add_all [⟨.IDENTIFIER, 4, 1⟩, ⟨.KEYWORD, 0, 3⟩, ⟨.IDENTIFIER, 0, 3⟩]
        LexemeTable.empty).table, la.position + la.len < SIZE_MOD) ∧
    (add_all [⟨.IDENTIFIER, 4, 1⟩, ⟨.KEYWORD, 0, 3⟩, ⟨.IDENTIFIER, 0, 3⟩]
        LexemeTable.empty).get_ordered_table =
      ([⟨.KEYWORD, 0, 3⟩, ⟨.IDENTIFIER, 4, 1⟩], ⟨[⟨.KEYWORD, 0, 3⟩, ⟨.IDENTIFIER, 4, 1⟩]⟩) ∧
    (Nat.iterate (fun s => s.get_ordered_table.2) 2
      (add_all [⟨.IDENTIFIER, 4, 1⟩, ⟨.KEYWORD, 0, 3⟩, ⟨.IDENTIFIER, 0, 3⟩]
        LexemeTable.empty).get_ordered_table.2).get_ordered_table =
      (add_all [⟨.IDENTIFIER, 4, 1⟩, ⟨.KEYWORD, 0, 3⟩, ⟨.IDENTIFIER, 0, 3⟩]
        LexemeTable.empty).get_ordered_table ∧
    (add_all [⟨.NUMBER, 5, 18446744073709551613⟩, ⟨.KEYWORD, 5, 1⟩]
      LexemeTable.empty).table.length ≤ 16 ∧
    (Nat.iterate (fun s => s.get_ordered_table.2) 1
      (add_all [⟨.NUMBER, 5, 18446744073709551613⟩, ⟨.KEYWORD, 5, 1⟩]
        LexemeTable.empty).get_ordered_table.2).get_ordered_table =
      (add_all [⟨.NUMBER, 5, 18446744073709551613⟩, ⟨.KEYWORD, 5, 1⟩]
        LexemeTable.empty).get_ordered_table ∧
    (add_all [⟨.KEYWORD, 10, 18446744073709551611⟩, ⟨.NUMBER, 12, 1⟩]
      LexemeTable.empty).table.Pairwise (fun a b => a.position ≠ b.position) ∧
    (Nat.iterate (fun s => s.get_ordered_table.2) 3
      (add_all [⟨.KEYWORD, 10, 18446744073709551611⟩, ⟨.NUMBER, 12, 1⟩]
        LexemeTable.empty).get_ordered_table.2).get_ordered_table =
      (add_all [⟨.KEYWORD, 10, 18446744073709551611⟩, ⟨.NUMBER, 12, 1⟩]
        LexemeTable.empty).get_ordered_table :=
  ⟨by decide, by decide,
    get_ordered_table_idempotent [⟨.IDENTIFIER, 4, 1⟩, ⟨.KEYWORD, 0, 3⟩, ⟨.IDENTIFIER, 0, 3⟩] 2
      (Or.inl (by decide)),
    by decide,
    get_ordered_table_idempotent [⟨.NUMBER, 5, 18446744073709551613⟩, ⟨.KEYWORD, 5, 1⟩] 1
      (Or.inr (Or.inr (by decide))),
    by decide,
    get_ordered_table_idempotent [⟨.KEYWORD, 10, 18446744073709551611⟩, ⟨.NUMBER, 12, 1⟩] 3
      (Or.inr (Or.inl (by decide)))⟩

/-- C10: on the 17-character text `Dim x = 5 ' set x`, for which the patterns produce the
candidates Directive none, Comment (10,7), StringOrChar none, Number (8,1), Operator (6,1),
Keyword (0,3), Identifier (0,3),(4,1),(12,3),(16,1), Delimiter (10,1), the run succeeds, the
ordered table is exactly Keyword (0,3), Identifier (4,1), Operator (6,1), Number (8,1),
Comment (10,7), and the renderer writes `Dim`, `x`, `=`, `5`, `' set x` in their colours with
plain one-space gaps between them (and an empty plain fragment at both ends), the fragments
concatenating to the full text. -/
theorem scenario_dim (regex_iterator : RegexIterator)
    (hdirective : regex_iterator .REG_DIRECTIVE "Dim x = 5 ' set x".toList = [])
    (hcomment : regex_iterator .REG_COMMENT "Dim x = 5 ' set x".toList = [(10, 7)])
    (hstr : regex_iterator .REG_STR_CHAR "Dim x = 5 ' set x".toList = [])
    (hnumber : regex_iterator .REG_NUMBER "Dim x = 5 ' set x".toList = [(8, 1)])
    (hoperator : regex_iterator .REG_OPERATOR "Dim x = 5 ' set x".toList = [(6, 1)])
    (hkeyword : regex_iterator .REG_KEYWORD "Dim x = 5 ' set x".toList = [(0, 3)])
    (hidentifier : regex_iterator .REG_IDENTIFIER "Dim x = 5 ' set x".toList =
      [(0, 3), (4, 1), (12, 3), (16, 1)])
    (hdelimiter : regex_iterator .REG_DELIMITER "Dim x = 5 ' set x".toList = [(10, 1)]) :
    "Dim x = 5 ' set x".toList.length = 17 ∧
    analyze_vb_lexemes regex_iterator "Dim x = 5 ' set x".toList =
      .ok ⟨[⟨.COMMENT, 10, 7⟩, ⟨.NUMBER, 8, 1⟩, ⟨.OPERATOR, 6, 1⟩, ⟨.KEYWORD, 0, 3⟩,
        ⟨.IDENTIFIER, 4, 1⟩]⟩ ∧
    (LexemeTable.get_ordered_table ⟨[⟨.COMMENT, 10, 7⟩, ⟨.NUMBER, 8, 1⟩, ⟨.OPERATOR, 6, 1⟩,
        ⟨.KEYWORD, 0, 3⟩, ⟨.IDENTIFIER, 4, 1⟩]⟩).1 =
      [⟨.KEYWORD, 0, 3⟩, ⟨.IDENTIFIER, 4, 1⟩, ⟨.OPERATOR, 6, 1⟩, ⟨.NUMBER, 8, 1⟩,
        ⟨.COMMENT, 10, 7⟩] ∧
    print_highlighted_text "Dim x = 5 ' set x".toList
        ⟨[⟨.COMMENT, 10, 7⟩, ⟨.NUMBER, 8, 1⟩, ⟨.OPERATOR, 6, 1⟩, ⟨.KEYWORD, 0, 3⟩,
          ⟨.IDENTIFIER, 4, 1⟩]⟩ =
      (.ok (),
        [.escape .RESET, .literal "".toList,
          .escape (lexeme_color .KEYWORD), .literal "Dim".toList,
          .escape .RESET, .literal " ".toList,
          .escape (lexeme_color .IDENTIFIER), .literal "x".toList,
          .escape .RESET, .literal " ".toList,
          .escape (lexeme_color .OPERATOR), .literal "=".toList,
          .escape .RESET, .literal " ".toList,
          .escape (lexeme_color .NUMBER), .literal "5".toList,
          .escape .RESET, .literal " ".toList,
          .escape (lexeme_color .COMMENT), .literal "' set x".toList,
          .escape .RESET, .literal "".toList],
        ⟨[⟨.KEYWORD, 0, 3⟩, ⟨.IDENTIFIER, 4, 1⟩, ⟨.OPERATOR, 6, 1⟩, ⟨.NUMBER, 8, 1⟩,
          ⟨.COMMENT, 10, 7⟩]⟩) ∧
    (fragments (print_highlighted_text "Dim x = 5 ' set x".toList
        ⟨[⟨.COMMENT, 10, 7⟩, ⟨.NUMBER, 8, 1⟩, ⟨.OPERATOR, 6, 1⟩, ⟨.KEYWORD, 0, 3⟩,
          ⟨.IDENTIFIER, 4, 1⟩]⟩).2.1).flatten = "Dim x = 5 ' set x".toList := by
  refine ⟨by decide, ?_, by decide, by decide, by decide⟩
  simp only [analyze_vb_lexemes, analyze_vb_lexemes_helper, select_regex, hdirective, hcomment,
    hstr, hnumber, hoperator, hkeyword, hidentifier, hdelimiter]
  decide

theorem scenario_dim_witness :
    analyze_vb_lexemes sample_matches "Dim x = 5 ' set x".toList =
      .ok ⟨[⟨.COMMENT, 10, 7⟩, ⟨.NUMBER, 8, 1⟩, ⟨.OPERATOR, 6, 1⟩, ⟨.KEYWORD, 0, 3⟩,
        ⟨.IDENTIFIER, 4, 1⟩]⟩ :=
  (scenario_dim sample_matches (by decide) (by decide) (by decide) (by decide) (by decide)
    (by decide) (by decide) (by decide)).2.1

/-- C11: on the text `1+2`, for which the patterns produce the candidates Number (0,1),(2,1) and
Operator (1,1) and no others, the ordered table is Number (0,1), Operator (1,1), Number (2,1),
the renderer writes the fragments `""`, `1`, `""`, `+`, `""`, `2`, `""` (the gaps plain, the
spans in their colours), and they concatenate to `1+2`. In general, for every text and every
table whose ordered spans are adjacent (each position equals the previous position plus the
previous len), every plain fragment written between two spans, which is the fragment at index
`2 * i` for `0 < i < number of spans`, is the empty string. -/
theorem scenario_adjacent (regex_iterator : RegexIterator)
    (hdirective : regex_iterator .REG_DIRECTIVE "1+2".toList = [])
    (hcomment : regex_iterator .REG_COMMENT "1+2".toList = [])
    (hstr : regex_iterator .REG_STR_CHAR "1+2".toList = [])
    (hnumber : regex_iterator .REG_NUMBER "1+2".toList = [(0, 1), (2, 1)])
    (hoperator : regex_iterator .REG_OPERATOR "1+2".toList = [(1, 1)])
    (hkeyword : regex_iterator .REG_KEYWORD "1+2".toList = [])
    (hidentifier : regex_iterator .REG_IDENTIFIER "1+2".toList = [])
    (hdelimiter : regex_iterator .REG_DELIMITER "1+2".toList = [])
    (text : Text) (table : LexemeTable)
    (hadjacent : adjacent table.get_ordered_table.1)
    (i : Nat) (hi0 : 0 < i) (hi : i < table.get_ordered_table.1.length) (f : Text)
    (hf : (fragments (print_highlighted_text text table).2.1)[2 * i]? = some f) :
    (analyze_vb_lexemes regex_iterator "1+2".toList =
        .ok ⟨[⟨.NUMBER, 0, 1⟩, ⟨.NUMBER, 2, 1⟩, ⟨.OPERATOR, 1, 1⟩]⟩ ∧
      (LexemeTable.get_ordered_table
          ⟨[⟨.NUMBER, 0, 1⟩, ⟨.NUMBER, 2, 1⟩, ⟨.OPERATOR, 1, 1⟩]⟩).1 =
        [⟨.NUMBER, 0, 1⟩, ⟨.OPERATOR, 1, 1⟩, ⟨.NUMBER, 2, 1⟩] ∧
      (print_highlighted_text "1+2".toList
          ⟨[⟨.NUMBER, 0, 1⟩, ⟨.NUMBER, 2, 1⟩, ⟨.OPERATOR, 1, 1⟩]⟩).1 = .ok () ∧
      annotated (print_highlighted_text "1+2".toList
          ⟨[⟨.NUMBER, 0, 1⟩, ⟨.NUMBER, 2, 1⟩, ⟨.OPERATOR, 1, 1⟩]⟩).2.1 =
        [(.RESET, "".toList), (lexeme_color .NUMBER, "1".toList), (.RESET, "".toList),
          (lexeme_color .OPERATOR, "+".toList), (.RESET, "".toList),
          (lexeme_color .NUMBER, "2".toList), (.RESET, "".toList)] ∧
      fragments (print_highlighted_text "1+2".toList
          ⟨[⟨.NUMBER, 0, 1⟩, ⟨.NUMBER, 2, 1⟩, ⟨.OPERATOR, 1, 1⟩]⟩).2.1 =
        ["".toList, "1".toList, "".toList, "+".toList, "".toList, "2".toList, "".toList] ∧
      (fragments (print_highlighted_text "1+2".toList
          ⟨[⟨.NUMBER, 0, 1⟩, ⟨.NUMBER, 2, 1⟩, ⟨.OPERATOR, 1, 1⟩]⟩).2.1).flatten =
        "1+2".toList) ∧
    f = [] := by
  refine ⟨⟨?_, by decide, by decide, by decide, by decide, by decide⟩, ?_⟩
  · simp only [analyze_vb_lexemes, analyze_vb_lexemes_helper, select_regex, hdirective,
      hcomment, hstr, hnumber, hoperator, hkeyword, hidentifier, hdelimiter]
    decide
  · exact print_loop_adjacent_gaps text table.get_ordered_table.1 0 hadjacent i hi0 hi f hf

theorem scenario_adjacent_witness :
    adjacent (LexemeTable.get_ordered_table
        ⟨[⟨.NUMBER, 0, 1⟩, ⟨.NUMBER, 2, 1⟩, ⟨.OPERATOR, 1, 1⟩]⟩).1 ∧
    (fragments (print_highlighted_text "1+2".toList
        ⟨[⟨.NUMBER, 0, 1⟩, ⟨.NUMBER, 2, 1⟩, ⟨.OPERATOR, 1, 1⟩]⟩).2.1)[2 * 1]? = some [] ∧
    analyze_vb_lexemes scenario_matches "1+2".toList =
      .ok ⟨[⟨.NUMBER, 0, 1⟩, ⟨.NUMBER, 2, 1⟩, ⟨.OPERATOR, 1, 1⟩]⟩ ∧
    ([] : Text) = [] :=
  ⟨by decide, by decide,
    (scenario_adjacent scenario_matches (by decide) (by decide) (by decide) (by decide)
      (by decide) (by decide) (by decide) (by decide) "1+2".toList
      ⟨[⟨.NUMBER, 0, 1⟩, ⟨.NUMBER, 2, 1⟩, ⟨.OPERATOR, 1, 1⟩]⟩ (by decide) 1 (by decide)
      (by decide) [] (by decide)).1.1,
    (scenario_adjacent scenario_matches (by decide) (by decide) (by decide) (by decide)
      (by decide) (by decide) (by decide) (by decide) "1+2".toList
      ⟨[⟨.NUMBER, 0, 1⟩, ⟨.NUMBER, 2, 1⟩, ⟨.OPERATOR, 1, 1⟩]⟩ (by decide) 1 (by decide)
      (by decide) [] (by decide)).2⟩

/-- C12: for every non-empty text, if the first candidate offered in a run is the range
`(0, length of text)`, then every candidate that has `len > 0` and lies within the text is
rejected by any table holding that span; and, the later candidates all being of that kind (as
the matches of the patterns are), the final table consists of exactly that one span with its
category, which is also the whole table whenever a later candidate is offered. -/
theorem whole_text_span_suppresses (regex_iterator : RegexIterator) (text : Text)
    (hne : text ≠ []) (hlen : text.length < SIZE_MOD)
    (c : LexemeAppearance) (rest : List LexemeAppearance)
    (hall : all_candidates regex_iterator text = c :: rest)
    (hc0 : c.position = 0) (hcl : c.len = text.length) :
    (∀ (t : LexemeTable) (type : LexemeType) (position len : Nat), c ∈ t.table → 0 < len →
      position + len ≤ text.length → t.addLexeme type position len = (.ok false, t)) ∧
    ((∀ d ∈ rest, 0 < d.len ∧ d.position + d.len ≤ text.length) →
      analyze_vb_lexemes regex_iterator text = .ok ⟨[c]⟩ ∧
      ∀ pre d post, rest = pre ++ d :: post →
        add_all (c :: pre) LexemeTable.empty = ⟨[c]⟩ ∧
        LexemeTable.addLexeme ⟨[c]⟩ d.type d.position d.len = (.ok false, ⟨[c]⟩)) := by
  refine ⟨fun t type position len hmem hl hin =>
    addLexeme_covered hlen hmem hc0 hcl type hl hin, fun hrest => ?_⟩
  have hpos : 0 < text.length := List.length_pos.mpr hne
  have hcne : c.len ≠ 0 := by omega
  have hfirst : LexemeTable.empty.addLexeme c.type c.position c.len = (.ok true, ⟨[c]⟩) :=
    addLexeme_accept hcne rfl
  have hmem : c ∈ (⟨[c]⟩ : LexemeTable).table := List.mem_singleton_self c
  constructor
  · rw [analyze_ok_iff, hall]
    constructor
    · intro d hd
      rcases List.mem_cons.mp hd with h | h
      · rw [h]; exact hcne
      · have := (hrest d h).1
        omega
    · rw [add_all_cons, hfirst]
      exact (add_all_covered hlen hmem hc0 hcl rest hrest).symm
  · intro pre d post hsplit
    have hd : d ∈ rest := by rw [hsplit]; exact List.mem_append_right _ (List.mem_cons_self _ _)
    constructor
    · rw [add_all_cons, hfirst]
      exact add_all_covered hlen hmem hc0 hcl pre
        (fun e he => hrest e (by rw [hsplit]; exact List.mem_append_left _ he))
    · exact addLexeme_covered hlen hmem hc0 hcl d.type (hrest d hd).1 (hrest d hd).2

theorem whole_text_span_suppresses_witness :
    "' Dim x = 5".toList ≠ [] ∧ "' Dim x = 5".toList.length < SIZE_MOD ∧
    all_candidates scenario_matches "' Dim x = 5".toList =
      ⟨.COMMENT, 0, 11⟩ :: [⟨.NUMBER, 10, 1⟩, ⟨.OPERATOR, 8, 1⟩, ⟨.KEYWORD, 2, 3⟩,
        ⟨.IDENTIFIER, 2, 3⟩, ⟨.IDENTIFIER, 6, 1⟩, ⟨.DELIMITER, 0, 1⟩] ∧
    analyze_vb_lexemes scenario_matches "' Dim x = 5".toList = .ok ⟨[⟨.COMMENT, 0, 11⟩]⟩ ∧
    all_candidates scenario_matches ['"', 'D', 'i', 'm', '"'] =
      ⟨.STR_CHAR, 0, 5⟩ :: [⟨.IDENTIFIER, 1, 3⟩, ⟨.DELIMITER, 0, 1⟩, ⟨.DELIMITER, 4, 1⟩] ∧
    analyze_vb_lexemes scenario_matches ['"', 'D', 'i', 'm', '"'] =
      .ok ⟨[⟨.STR_CHAR, 0, 5⟩]⟩ :=
  ⟨by decide, by decide, by decide,
    ((whole_text_span_suppresses scenario_matches "' Dim x = 5".toList (by decide) (by decide)
      ⟨.COMMENT, 0, 11⟩ [⟨.NUMBER, 10, 1⟩, ⟨.OPERATOR, 8, 1⟩, ⟨.KEYWORD, 2, 3⟩,
        ⟨.IDENTIFIER, 2, 3⟩, ⟨.IDENTIFIER, 6, 1⟩, ⟨.DELIMITER, 0, 1⟩]
      (by decide) (by decide) (by decide)).2 (by decide)).1,
    by decide,
    ((whole_text_span_suppresses scenario_matches ['"', 'D', 'i', 'm', '"'] (by decide)
      (by decide) ⟨.STR_CHAR, 0, 5⟩ [⟨.IDENTIFIER, 1, 3⟩, ⟨.DELIMITER, 0, 1⟩,
        ⟨.DELIMITER, 4, 1⟩]
      (by decide) (by decide) (by decide)).2 (by decide)).1⟩

/-- C13: for every text on which all eight matchers produce no candidate, `analyze_vb_lexemes`
returns the empty table and throws nothing, which tells the run apart from the failure on a
zero-length candidate; and for every text (a `std::string`, so shorter than `2^64`), rendering
it against the empty table writes exactly one fragment, plain, equal to the whole text: a
single empty plain fragment when the text is empty. -/
theorem no_match_empty_table (regex_iterator : RegexIterator) (vb_code : Text)
    (hnone : ∀ regex, regex_iterator regex vb_code = [])
    (text : Text) (hlen : text.length < SIZE_MOD) :
    analyze_vb_lexemes regex_iterator vb_code = .ok LexemeTable.empty ∧
    (∀ what, analyze_vb_lexemes regex_iterator vb_code ≠ .error what) ∧
    print_highlighted_text text LexemeTable.empty =
      (.ok (), [.escape .RESET, .literal text], LexemeTable.empty) ∧
    annotated (print_highlighted_text text LexemeTable.empty).2.1 = [(.RESET, text)] ∧
    print_highlighted_text [] LexemeTable.empty =
      (.ok (), [.escape .RESET, .literal []], LexemeTable.empty) := by
  have hrun : analyze_vb_lexemes regex_iterator vb_code = .ok LexemeTable.empty := by
    simp only [analyze_vb_lexemes, analyze_vb_lexemes_helper, hnone, helper_loop]
  refine ⟨hrun, ?_, print_empty_table text hlen, ?_, by decide⟩
  · intro what h
    rw [hrun] at h
    cases h
  · rw [print_empty_table text hlen]
    rfl

theorem no_match_empty_table_witness :
    (∀ regex, scenario_matches regex "".toList = []) ∧
    "x y".toList.length < SIZE_MOD ∧
    analyze_vb_lexemes scenario_matches "".toList = .ok LexemeTable.empty ∧
    analyze_vb_lexemes faulty_matches "".toList =
      .error "Length of lexeme type 1 is 0 (pos 2)." ∧
    print_highlighted_text "x y".toList LexemeTable.empty =
      (.ok (), [.escape .RESET, .literal "x y".toList], LexemeTable.empty) :=
  ⟨fun regex => by cases regex <;> rfl, by decide,
    (no_match_empty_table scenario_matches "".toList (fun regex => by cases regex <;> rfl)
      "x y".toList (by decide)).1,
    by decide,
    (no_match_empty_table scenario_matches "".toList (fun regex => by cases regex <;> rfl)
      "x y".toList (by decide)).2.2.1⟩

/-- C16: for every successful run of `analyze_vb_lexemes`, every span in the final table is one
of the candidates some matcher produced: its position and len are those of a match of the
pattern of its own category, and its len is positive. Consequently, if every candidate
satisfies `position + len <= length of text`, so does every span in the final table. -/
theorem accepted_spans_are_candidates (regex_iterator : RegexIterator) (text : Text)
    (table : LexemeTable) (hrun : analyze_vb_lexemes regex_iterator text = .ok table) :
    (∀ la ∈ table.table,
      la ∈ all_candidates regex_iterator text ∧
      (la.position, la.len) ∈ regex_iterator (select_regex la.type) text ∧ 0 < la.len) ∧
    ((∀ regex, ∀ c ∈ regex_iterator regex text, c.1 + c.2 ≤ text.length) →
      ∀ la ∈ table.table, la.position + la.len ≤ text.length) := by
  obtain ⟨hz, htab⟩ := (analyze_ok_iff regex_iterator text table).mp hrun
  have hsub : ∀ la ∈ table.table, la ∈ all_candidates regex_iterator text := by
    intro la hla
    rw [htab] at hla
    rcases add_all_subset _ LexemeTable.empty la hla with h | h
    · exact absurd h (List.not_mem_nil _)
    · exact h
  constructor
  · intro la hla
    exact ⟨hsub la hla, mem_all_candidates.mp (hsub la hla),
      Nat.pos_of_ne_zero (hz la (hsub la hla))⟩
  · intro hin la hla
    exact hin _ _ (mem_all_candidates.mp (hsub la hla))

theorem accepted_spans_are_candidates_witness :
    analyze_vb_lexemes sample_matches "Dim x = 5 ' set x".toList =
      .ok ⟨[⟨.COMMENT, 10, 7⟩, ⟨.NUMBER, 8, 1⟩, ⟨.OPERATOR, 6, 1⟩, ⟨.KEYWORD, 0, 3⟩,
        ⟨.IDENTIFIER, 4, 1⟩]⟩ ∧
    (∀ regex, ∀ c ∈ sample_matches regex "Dim x = 5 ' set x".toList,
      c.1 + c.2 ≤ "Dim x = 5 ' set x".toList.length) ∧
    (∀ la ∈ [(⟨.COMMENT, 10, 7⟩ : LexemeAppearance), ⟨.NUMBER, 8, 1⟩, ⟨.OPERATOR, 6, 1⟩,
        ⟨.KEYWORD, 0, 3⟩, ⟨.IDENTIFIER, 4, 1⟩],
      la.position + la.len ≤ "Dim x = 5 ' set x".toList.length) :=
  ⟨by decide, fun regex => by cases regex <;> decide,
    (accepted_spans_are_candidates sample_matches "Dim x = 5 ' set x".toList
      ⟨[⟨.COMMENT, 10, 7⟩, ⟨.NUMBER, 8, 1⟩, ⟨.OPERATOR, 6, 1⟩, ⟨.KEYWORD, 0, 3⟩,
        ⟨.IDENTIFIER, 4, 1⟩]⟩ (by decide)).2 (fun regex => by cases regex <;> decide)⟩

/-- C17: in every successful run, every candidate offered to the table is either accepted, and
then present in the final table with its category, or rejected, and then it intersects a span
of the final table that was offered strictly earlier (it is among the candidates before it, of
the same or an earlier category) and was already stored when the candidate was offered. So a
candidate is dropped only because of a span accepted before it, and a candidate absent from the
final table would still be rejected by `addLexeme` on the final table. -/
theorem greedy_maximality (regex_iterator : RegexIterator) (text : Text) (table : LexemeTable)
    (hrun : analyze_vb_lexemes regex_iterator text = .ok table)
    (pre : List LexemeAppearance) (c : LexemeAppearance) (post : List LexemeAppearance)
    (hsplit : all_candidates regex_iterator text = pre ++ c :: post) :
    ((((add_all pre LexemeTable.empty).addLexeme c.type c.position c.len).1 = .ok true ∧
        c ∈ table.table) ∨
      (((add_all pre LexemeTable.empty).addLexeme c.type c.position c.len).1 = .ok false ∧
        ∃ la ∈ (add_all pre LexemeTable.empty).table,
          la ∈ table.table ∧ la ∈ pre ∧ priority la.type ≤ priority c.type ∧
            ¬ disjoint la c)) ∧
    (c ∉ table.table → (table.addLexeme c.type c.position c.len).1 = .ok false) := by
  have hl : c.len ≠ 0 := ((analyze_ok_iff regex_iterator text table).mp hrun).1 c
    (by rw [hsplit]; exact List.mem_append_right _ (List.mem_cons_self _ _))
  rcases offer_outcome hrun hsplit with ⟨h1, h2⟩ | ⟨h1, la, hla, hfin, hpre, hfree⟩
  · exact ⟨Or.inl ⟨h1, h2⟩, fun hno => absurd h2 hno⟩
  · have hov : ¬ disjoint la c := by
      intro hd
      rw [overlap_free_of_disjoint hd] at hfree
      exact absurd hfree (by decide)
    refine ⟨Or.inr ⟨h1, la, hla, hfin, hpre, priority_before hsplit la hpre, hov⟩, fun _ => ?_⟩
    rw [addLexeme_reject hl (List.all_eq_false.mpr ⟨la, hfin, by simp [hfree]⟩)]

theorem greedy_maximality_witness :
    analyze_vb_lexemes sample_matches "Dim x = 5 ' set x".toList =
      .ok ⟨[⟨.COMMENT, 10, 7⟩, ⟨.NUMBER, 8, 1⟩, ⟨.OPERATOR, 6, 1⟩, ⟨.KEYWORD, 0, 3⟩,
        ⟨.IDENTIFIER, 4, 1⟩]⟩ ∧
    all_candidates sample_matches "Dim x = 5 ' set x".toList =
      [⟨.COMMENT, 10, 7⟩, ⟨.NUMBER, 8, 1⟩, ⟨.OPERATOR, 6, 1⟩, ⟨.KEYWORD, 0, 3⟩,
        ⟨.IDENTIFIER, 0, 3⟩, ⟨.IDENTIFIER, 4, 1⟩] ++
      ⟨.IDENTIFIER, 12, 3⟩ :: [⟨.IDENTIFIER, 16, 1⟩, ⟨.DELIMITER, 10, 1⟩] ∧
    (⟨.IDENTIFIER, 12, 3⟩ : LexemeAppearance) ∉
      [(⟨.COMMENT, 10, 7⟩ : LexemeAppearance), ⟨.NUMBER, 8, 1⟩, ⟨.OPERATOR, 6, 1⟩,
        ⟨.KEYWORD, 0, 3⟩, ⟨.IDENTIFIER, 4, 1⟩] ∧
    (LexemeTable.addLexeme ⟨[⟨.COMMENT, 10, 7⟩, ⟨.NUMBER, 8, 1⟩, ⟨.OPERATOR, 6, 1⟩,
      ⟨.KEYWORD, 0, 3⟩, ⟨.IDENTIFIER, 4, 1⟩]⟩ .IDENTIFIER 12 3).1 = .ok false :=
  ⟨by decide, by decide, by decide,
    (greedy_maximality sample_matches "Dim x = 5 ' set x".toList
      ⟨[⟨.COMMENT, 10, 7⟩, ⟨.NUMBER, 8, 1⟩, ⟨.OPERATOR, 6, 1⟩, ⟨.KEYWORD, 0, 3⟩,
        ⟨.IDENTIFIER, 4, 1⟩]⟩ (by decide)
      [⟨.COMMENT, 10, 7⟩, ⟨.NUMBER, 8, 1⟩, ⟨.OPERATOR, 6, 1⟩, ⟨.KEYWORD, 0, 3⟩,
        ⟨.IDENTIFIER, 0, 3⟩, ⟨.IDENTIFIER, 4, 1⟩]
      ⟨.IDENTIFIER, 12, 3⟩ [⟨.IDENTIFIER, 16, 1⟩, ⟨.DELIMITER, 10, 1⟩] (by decide)).2
      (by decide)⟩

/-- C18: for every text, if the candidates of the Directive matcher all have `len > 0` and are
pairwise non-overlapping, the first helper call accepts every one of them without throwing, and
every one of them is in the table `analyze_vb_lexemes` returns, whatever the other seven
matchers produce; more generally, any candidate of any category that intersects no candidate
offered before it is accepted and is in the returned table. -/
theorem directive_never_dropped (regex_iterator : RegexIterator) (text : Text)
    (hpos : ∀ c ∈ regex_iterator .REG_DIRECTIVE text, 0 < c.2)
    (hpair : (regex_iterator .REG_DIRECTIVE text).Pairwise
      (fun a b => a.1 + a.2 ≤ b.1 ∨ b.1 + b.2 ≤ a.1)) :
    analyze_vb_lexemes_helper regex_iterator text .DIRECTIVE LexemeTable.empty =
      (.ok (), ⟨(regex_iterator .REG_DIRECTIVE text).map (fun c => ⟨.DIRECTIVE, c.1, c.2⟩)⟩) ∧
    (∀ table, analyze_vb_lexemes regex_iterator text = .ok table →
      ∀ c ∈ regex_iterator .REG_DIRECTIVE text,
        (⟨.DIRECTIVE, c.1, c.2⟩ : LexemeAppearance) ∈ table.table) ∧
    (∀ table, analyze_vb_lexemes regex_iterator text = .ok table →
      ∀ pre c post, all_candidates regex_iterator text = pre ++ c :: post →
        (∀ d ∈ pre, disjoint d c) →
        ((add_all pre LexemeTable.empty).addLexeme c.type c.position c.len).1 = .ok true ∧
          c ∈ table.table) := by
  have hgen : ∀ table, analyze_vb_lexemes regex_iterator text = .ok table →
      ∀ pre c post, all_candidates regex_iterator text = pre ++ c :: post →
        (∀ d ∈ pre, disjoint d c) →
        ((add_all pre LexemeTable.empty).addLexeme c.type c.position c.len).1 = .ok true ∧
          c ∈ table.table := by
    intro table hrun pre c post hsplit hdis
    rcases offer_outcome hrun hsplit with h | ⟨_, la, _, _, hpre, hfree⟩
    · exact h
    · rw [overlap_free_of_disjoint (hdis la hpre)] at hfree
      exact absurd hfree (by decide)
  have hfirst : analyze_vb_lexemes_helper regex_iterator text .DIRECTIVE LexemeTable.empty =
      (.ok (), ⟨(regex_iterator .REG_DIRECTIVE text).map (fun c => ⟨.DIRECTIVE, c.1, c.2⟩)⟩) := by
    rw [helper_eq_offer_all]
    have h := offer_all_pairwise (candidates_of regex_iterator text .DIRECTIVE)
      LexemeTable.empty
      (by
        intro c hc
        obtain ⟨d, hd, rfl⟩ := List.mem_map.mp hc
        exact Nat.pos_iff_ne_zero.mp (hpos d hd))
      (by
        simp only [LexemeTable.empty, List.nil_append, candidates_of, select_regex]
        rw [List.pairwise_map]
        exact hpair)
    simpa [LexemeTable.empty, candidates_of, select_regex] using h
  refine ⟨hfirst, ?_, hgen⟩
  intro table hrun c hc
  have htab := ((analyze_ok_iff regex_iterator text table).mp hrun).2
  have hsplit : all_candidates regex_iterator text =
      candidates_of regex_iterator text .DIRECTIVE ++
        (priority_order.drop 1).flatMap (candidates_of regex_iterator text) := rfl
  rw [hsplit, add_all_append] at htab
  have hD : add_all (candidates_of regex_iterator text .DIRECTIVE) LexemeTable.empty =
      ⟨(regex_iterator .REG_DIRECTIVE text).map (fun c => ⟨.DIRECTIVE, c.1, c.2⟩)⟩ := by
    have h1 := offer_all_find (candidates_of regex_iterator text .DIRECTIVE) LexemeTable.empty
    have hnz : ∀ c ∈ candidates_of regex_iterator text .DIRECTIVE, c.len ≠ 0 := by
      intro c hc
      obtain ⟨d, hd, rfl⟩ := List.mem_map.mp hc
      exact Nat.pos_iff_ne_zero.mp (hpos d hd)
    rw [find_zero_none.mpr hnz] at h1
    simp only at h1
    rw [← helper_eq_offer_all, hfirst] at h1
    exact (congrArg Prod.snd h1).symm
  rw [htab]
  apply add_all_mono
  rw [hD]
  exact List.mem_map.mpr ⟨c, hc, rfl⟩

theorem directive_never_dropped_witness :
    (∀ c ∈ scenario_matches .REG_DIRECTIVE "#Const A = 1".toList, 0 < c.2) ∧
    (scenario_matches .REG_DIRECTIVE "#Const A = 1".toList).Pairwise
      (fun a b => a.1 + a.2 ≤ b.1 ∨ b.1 + b.2 ≤ a.1) ∧
    analyze_vb_lexemes scenario_matches "#Const A = 1".toList =
      .ok ⟨[⟨.DIRECTIVE, 0, 12⟩]⟩ ∧
    (∀ c ∈ scenario_matches .REG_DIRECTIVE "#Const A = 1".toList,
      (⟨.DIRECTIVE, c.1, c.2⟩ : LexemeAppearance) ∈ [(⟨.DIRECTIVE, 0, 12⟩ : LexemeAppearance)]) :=
  ⟨by decide, by decide, by decide,
    (directive_never_dropped scenario_matches "#Const A = 1".toList (by decide)
      (by decide)).2.1 ⟨[⟨.DIRECTIVE, 0, 12⟩]⟩ (by decide)⟩

/-- C15, as stated, fails when a stored span wraps around: `addLexeme(NUMBER, 5, 2^64 - 3)` on
the empty table is accepted, its end `5 + (2^64 - 3)` wraps to 2, so `addLexeme(KEYWORD, 5, 1)`
finds `2 <= 5` and is accepted as well; the table then holds two entries with position 5 and
its ordered sequence is not strictly increasing. -/
theorem position_tie_on_wrap :
    5 < SIZE_MOD ∧ 18446744073709551613 < SIZE_MOD ∧ 1 < SIZE_MOD ∧
    (LexemeTable.empty.addLexeme .NUMBER 5 18446744073709551613).1 = .ok true ∧
    ((LexemeTable.empty.addLexeme .NUMBER 5 18446744073709551613).2.addLexeme
      .KEYWORD 5 1).1 = .ok true ∧
    (add_all [⟨.NUMBER, 5, 18446744073709551613⟩, ⟨.KEYWORD, 5, 1⟩] LexemeTable.empty).table =
      [⟨.NUMBER, 5, 18446744073709551613⟩, ⟨.KEYWORD, 5, 1⟩] ∧
    (⟨.NUMBER, 5, 18446744073709551613⟩ : LexemeAppearance).position =
      (⟨.KEYWORD, 5, 1⟩ : LexemeAppearance).position ∧
    ¬ ((add_all [⟨.NUMBER, 5, 18446744073709551613⟩, ⟨.KEYWORD, 5, 1⟩]
        LexemeTable.empty).get_ordered_table.1).Pairwise
      (fun a b => a.position < b.position) := by
  decide

/-- C15 (amended): in every table reached from the empty one by `addLexeme` calls in which no
stored span has `position + len` overflowing `size_t` (as is the case for spans inside a text),
no two entries at distinct indices have the same position; the sequence `get_ordered_table`
returns is strictly increasing in position, it is the only arrangement of the table sorted by
position, whatever sort algorithm produces it, and every consecutive pair satisfies
`previous.position + previous.len <= next.position`. -/
theorem no_position_ties (calls : List LexemeAppearance)
    (hstored : ∀ la ∈ (add_all calls LexemeTable.empty).table,
      la.position + la.len < SIZE_MOD) :
    (∀ (i j : Nat) (hi : i < (add_all calls LexemeTable.empty).table.length)
        (hj : j < (add_all calls LexemeTable.empty).table.length), i ≠ j →
      ((add_all calls LexemeTable.empty).table.get ⟨i, hi⟩).position ≠
        ((add_all calls LexemeTable.empty).table.get ⟨j, hj⟩).position) ∧
    ((add_all calls LexemeTable.empty).get_ordered_table.1).Pairwise
      (fun a b => a.position < b.position) ∧
    (∀ v : List LexemeAppearance, v.Perm (add_all calls LexemeTable.empty).table →
      v.Pairwise (fun a b => a.position ≤ b.position) →
      v = (add_all calls LexemeTable.empty).get_ordered_table.1) ∧
    (∀ (k : Nat) (h : k + 1 < (add_all calls LexemeTable.empty).get_ordered_table.1.length),
      (((add_all calls LexemeTable.empty).get_ordered_table.1).get
          ⟨k, Nat.lt_of_succ_lt h⟩).position +
        (((add_all calls LexemeTable.empty).get_ordered_table.1).get
          ⟨k, Nat.lt_of_succ_lt h⟩).len ≤
      (((add_all calls LexemeTable.empty).get_ordered_table.1).get ⟨k + 1, h⟩).position) := by
  have hw := add_all_well_formed_of_stored calls LexemeTable.empty well_formed_nil hstored
  have hwv := well_formed_perm (std_sort_perm (add_all calls LexemeTable.empty).table) hw
  have hsv := std_sort_positions (add_all calls LexemeTable.empty).table
  refine ⟨?_, sorted_strict hsv hwv, fun v hp hs => sorted_unique hw hp hs, ?_⟩
  · intro i j hi hj hij heq
    have hd := non_overlapping_of_pairwise hw.1 i j hi hj hij
    have hli := (hw.2 _ (List.get_mem _ i hi)).1
    have hlj := (hw.2 _ (List.get_mem _ j hj)).1
    unfold disjoint at hd
    omega
  · intro k h
    exact (List.pairwise_iff_get.mp (sorted_ends hsv hwv)) ⟨k, Nat.lt_of_succ_lt h⟩ ⟨k + 1, h⟩
      (Nat.lt_succ_self k)

theorem no_position_ties_witness :
    (∀ la ∈ (add_all [⟨.IDENTIFIER, 4, 1⟩, ⟨.KEYWORD, 0, 3⟩, ⟨.IDENTIFIER, 0, 3⟩]
        LexemeTable.empty).table, la.position + la.len < SIZE_MOD) ∧
    ((add_all [⟨.IDENTIFIER, 4, 1⟩, ⟨.KEYWORD, 0, 3⟩, ⟨.IDENTIFIER, 0, 3⟩]
        LexemeTable.empty).get_ordered_table.1).Pairwise
      (fun a b => a.position < b.position) :=
  ⟨by decide,
    (no_position_ties [⟨.IDENTIFIER, 4, 1⟩, ⟨.KEYWORD, 0, 3⟩, ⟨.IDENTIFIER, 0, 3⟩]
      (by decide)).2.1⟩

/-- C14: for every text (a `std::string`, so shorter than `2^64`) and every table reached from
the empty one by `addLexeme` calls, with spans `s_1 .. s_n` in ascending position order, all
within the text, `print_highlighted_text` throws nothing and writes exactly `2n+1` fragments,
alternately plain and categorised: counting spans and fragments from 0, fragment `2i` is plain
and equals `text[end of the span before s_i (0 for the first), s_i.position)`, fragment `2i+1`
has the colour of `s_i.type` and equals `text[s_i.position, s_i.position + s_i.len)`, and the
last fragment `2n` is plain and equals `text[end of the last span, length of text)`. The colour
of a category is never the plain one and tells the category. -/
theorem print_highlighted_text_fragments (text : Text) (hlen : text.length < SIZE_MOD)
    (calls : List LexemeAppearance)
    (hstored : ∀ la ∈ (add_all calls LexemeTable.empty).table,
      la.position + la.len ≤ text.length) :
    (print_highlighted_text text (add_all calls LexemeTable.empty)).1 = .ok () ∧
    ((add_all calls LexemeTable.empty).get_ordered_table.1).Pairwise
      (fun a b => a.position < b.position) ∧
    (annotated (print_highlighted_text text (add_all calls LexemeTable.empty)).2.1).length =
      2 * (add_all calls LexemeTable.empty).get_ordered_table.1.length + 1 ∧
    (∀ (i : Nat) (hi : i < (add_all calls LexemeTable.empty).get_ordered_table.1.length),
      (annotated (print_highlighted_text text (add_all calls LexemeTable.empty)).2.1)[2 * i]? =
        some (.RESET,
          slice text (end_before 0 (add_all calls LexemeTable.empty).get_ordered_table.1 i)
            ((add_all calls LexemeTable.empty).get_ordered_table.1.get ⟨i, hi⟩).position) ∧
      (annotated
          (print_highlighted_text text (add_all calls LexemeTable.empty)).2.1)[2 * i + 1]? =
        some (lexeme_color
            ((add_all calls LexemeTable.empty).get_ordered_table.1.get ⟨i, hi⟩).type,
          slice text
            ((add_all calls LexemeTable.empty).get_ordered_table.1.get ⟨i, hi⟩).position
            (((add_all calls LexemeTable.empty).get_ordered_table.1.get ⟨i, hi⟩).position +
              ((add_all calls LexemeTable.empty).get_ordered_table.1.get ⟨i, hi⟩).len))) ∧
    (annotated (print_highlighted_text text (add_all calls LexemeTable.empty)).2.1)[
        2 * (add_all calls LexemeTable.empty).get_ordered_table.1.length]? =
      some (.RESET,
        slice text
          (end_before 0 (add_all calls LexemeTable.empty).get_ordered_table.1
            (add_all calls LexemeTable.empty).get_ordered_table.1.length)
          text.length) ∧
    (∀ type, lexeme_color type ≠ .RESET) ∧
    (∀ type1 type2, lexeme_color type1 = lexeme_color type2 → type1 = type2) := by
  have hw := add_all_well_formed_of_stored calls LexemeTable.empty well_formed_nil
    (fun la hla => Nat.lt_of_le_of_lt (hstored la hla) hlen)
  have hperm := std_sort_perm (add_all calls LexemeTable.empty).table
  have hwv := well_formed_perm hperm hw
  have hch : chained text.length (std_sort (add_all calls LexemeTable.empty).table) 0 :=
    chained_of_sorted text.length _ 0 (std_sort_sorted _) hwv
      (fun la hla => hstored la (hperm.subset hla)) (Nat.zero_le _) (fun _ _ => Nat.zero_le _)
  obtain ⟨h1, h2, h3⟩ := print_loop_fragments text hlen _ 0 .RESET hch
  refine ⟨(print_loop_chained text hlen _ 0 hch).1,
    sorted_strict (std_sort_positions _) hwv, h1, h2, h3, ?_, ?_⟩
  · intro type
    cases type <;> decide
  · intro type1 type2 h
    cases type1 <;> cases type2 <;> first | rfl | exact absurd h (by decide)

theorem print_highlighted_text_fragments_witness :
    "Dim x = 5 ' set x".toList.length < SIZE_MOD ∧
    (∀ la ∈ (add_all [⟨.COMMENT, 10, 7⟩, ⟨.KEYWORD, 0, 3⟩, ⟨.IDENTIFIER, 0, 3⟩,
        ⟨.IDENTIFIER, 4, 1⟩] LexemeTable.empty).table,
      la.position + la.len ≤ "Dim x = 5 ' set x".toList.length) ∧
    (add_all [⟨.COMMENT, 10, 7⟩, ⟨.KEYWORD, 0, 3⟩, ⟨.IDENTIFIER, 0, 3⟩, ⟨.IDENTIFIER, 4, 1⟩]
      LexemeTable.empty).get_ordered_table.1 =
        [⟨.KEYWORD, 0, 3⟩, ⟨.IDENTIFIER, 4, 1⟩, ⟨.COMMENT, 10, 7⟩] ∧
    annotated (print_highlighted_text "Dim x = 5 ' set x".toList
      (add_all [⟨.COMMENT, 10, 7⟩, ⟨.KEYWORD, 0, 3⟩, ⟨.IDENTIFIER, 0, 3⟩, ⟨.IDENTIFIER, 4, 1⟩]
        LexemeTable.empty)).2.1 =
      [(.RESET, "".toList), (lexeme_color .KEYWORD, "Dim".toList), (.RESET, " ".toList),
        (lexeme_color .IDENTIFIER, "x".toList), (.RESET, " = 5 ".toList),
        (lexeme_color .COMMENT, "' set x".toList), (.RESET, "".toList)] ∧
    (annotated (print_highlighted_text "Dim x = 5 ' set x".toList
      (add_all [⟨.COMMENT, 10, 7⟩, ⟨.KEYWORD, 0, 3⟩, ⟨.IDENTIFIER, 0, 3⟩, ⟨.IDENTIFIER, 4, 1⟩]
        LexemeTable.empty)).2.1).length =
      2 * (add_all [⟨.COMMENT, 10, 7⟩, ⟨.KEYWORD, 0, 3⟩, ⟨.IDENTIFIER, 0, 3⟩,
        ⟨.IDENTIFIER, 4, 1⟩] LexemeTable.empty).get_ordered_table.1.length + 1 :=
  ⟨by decide, by decide, by decide, by decide,
    (print_highlighted_text_fragments "Dim x = 5 ' set x".toList (by decide)
      [⟨.COMMENT, 10, 7⟩, ⟨.KEYWORD, 0, 3⟩, ⟨.IDENTIFIER, 0, 3⟩, ⟨.IDENTIFIER, 4, 1⟩]
      (by decide)).2.2.1⟩

end SysProgLab3
